import Mathlib

/-!
# Verification of the CIP-64 transaction codec (celo-org/ethers.js)

Shallow embedding of the CIP-64 (type `0x7b`) fee-currency transaction
codec: the standalone class variant (`src.ts/chain/celo.ts`) and the
plugin-registered variant, over byte sequences modelled as `List Nat`.
External collaborators (the recursive byte-list codec, the digest
primitive, address validation, the shared signature parsing routine and
the generic transaction base class) are modelled from the specification's
collaborator contracts; the digest is passed in as a function parameter.
-/

namespace CeloSpec

/-- Error taxonomy of the surrounding library, as observable from the
codec: argument validation errors (`assertArgument`), unsupported
operation errors (`assert` with code UNSUPPORTED_OPERATION), and
malformed-encoding errors raised by the recursive list decoder. -/
inductive Err where
  | invalidArgument (name : String) (message : String) (value : String)
  | unsupportedOperation (message : String) (operation : String)
  | badData (message : String)
deriving Repr, DecidableEq

/-- The message component of an error, for discriminating error sources. -/
def Err.msg : Err → String
  | .invalidArgument _ m _ => m
  | .unsupportedOperation m _ => m
  | .badData m => m

/-- One lower-case hex digit. -/
def hexChar (n : Nat) : Char :=
  if n < 10 then Char.ofNat (48 + n) else Char.ofNat (87 + n)

/-- Modelled from the spec: hex rendering of a byte sequence with `0x`
prefix, used when errors carry the offending raw value. -/
def hexlify (bs : List Nat) : String :=
  bs.foldl (fun s b => s.push (hexChar (b / 16 % 16)) |>.push (hexChar (b % 16))) "0x"

/-- Fuel-driven minimal big-endian byte rendering of a natural number
(helper for `beBytes`; fuel `n` always suffices since the value shrinks
by a factor of 256 each step). -/
def beBytesF : Nat → Nat → List Nat
  | 0, _ => []
  | fuel + 1, n => if n = 0 then [] else beBytesF fuel (n / 256) ++ [n % 256]

/-- Minimal big-endian byte sequence of a natural number; zero renders as
the empty sequence (the library's `toBeArray`). -/
def beBytes (n : Nat) : List Nat := beBytesF n n

/-- Big-endian interpretation of a byte sequence as a natural number. -/
def fromBe (bs : List Nat) : Nat := bs.foldl (fun acc b => acc * 256 + b) 0

namespace Rlp

/-- The value space of the recursive byte-list encoding: byte strings and
arbitrarily nested lists of them. -/
inductive Item where
  | bytes : List Nat → Item
  | list : List Item → Item

instance : Inhabited Item := ⟨.bytes []⟩

/-- Length prefix of the recursive-list encoding: short form packs the
length into the tag byte, long form emits the big-endian length after an
adjusted tag. -/
def encLen (offset len : Nat) : List Nat :=
  if len < 56 then [offset + len]
  else (offset + 55 + (beBytes len).length) :: beBytes len

/-- Encoding of a byte-string item: a single byte below `0x80` stands for
itself, anything else gets a length prefix with offset `0x80`. -/
def encBytes (bs : List Nat) : List Nat :=
  if bs.length = 1 ∧ bs.headD 0 < 128 then bs
  else encLen 128 bs.length ++ bs

/-- Fuel-driven encoder for items (fuel `sizeOf it` always suffices). -/
def encodeF : Nat → Item → List Nat
  | 0, _ => []
  | _ + 1, .bytes bs => encBytes bs
  | fuel + 1, .list items =>
      let p := items.foldr (fun i acc => encodeF fuel i ++ acc) []
      encLen 192 p.length ++ p

/-- Concatenated encodings of a sequence of items (a list payload). -/
def encodeSeqF (fuel : Nat) (items : List Item) : List Nat :=
  items.foldr (fun i acc => encodeF fuel i ++ acc) []

/-- Modelled from the spec: the generic recursive byte-list encoding
primitive, `encode(list of byte-strings | nested lists) -> bytes`, at the
nesting depths this codec produces. A CIP-64 field list nests at most
four levels (field list → access list → pair → storage-key list), so
fuel 5 is exact for every item the transaction serializer builds
(`DepthLe 5` holds for all of them, and `encodeF` only consumes one unit
of fuel per nesting level). -/
def rlpEncodeTx (it : Item) : List Nat := encodeF 5 it

/-- Well-formedness needed for decodability: every byte-string is shorter
than `256 ^ 8` bytes, so its long-form length prefix never collides with
the list tag range. Every realizable byte array satisfies this. -/
inductive Good : Item → Prop where
  | bytes : ∀ bs, bs.length < 256 ^ 8 → Good (.bytes bs)
  | list : ∀ items, (∀ i ∈ items, Good i) → Good (.list items)

/-- Items of nesting depth at most `n`; `encodeF` is exact on items whose
depth is at most its fuel. -/
inductive DepthLe : Nat → Item → Prop where
  | bytes : ∀ n bs, DepthLe (n + 1) (.bytes bs)
  | list : ∀ n items, (∀ i ∈ items, DepthLe n i) → DepthLe (n + 1) (.list items)

/-- One level of the decoder pair: the first component decodes a single
item off the front of the input, the second decodes a whole sequence
until the input is exhausted. Defined as a pair so the mutual recursion
is structural in the fuel and reduces definitionally. -/
def decodeFns : Nat → ((List Nat → Option (Item × List Nat)) × (List Nat → Option (List Item)))
  | 0 =>
    (fun _ => none,
     fun data => match data with
       | [] => some []
       | _ :: _ => none)
  | fuel + 1 =>
    let dp := decodeFns fuel
    (fun data =>
      match data with
      | [] => none
      | b :: rest =>
        if b < 128 then some (.bytes [b], rest)
        else if b < 184 then
          let len := b - 128
          if rest.length < len then none
          else some (.bytes (rest.take len), rest.drop len)
        else if b < 192 then
          let ll := b - 183
          if rest.length < ll then none
          else
            let len := fromBe (rest.take ll)
            let r2 := rest.drop ll
            if r2.length < len then none
            else some (.bytes (r2.take len), r2.drop len)
        else if b < 248 then
          let len := b - 192
          if rest.length < len then none
          else match dp.2 (rest.take len) with
            | some items => some (.list items, rest.drop len)
            | none => none
        else
          let ll := b - 247
          if rest.length < ll then none
          else
            let len := fromBe (rest.take ll)
            let r2 := rest.drop ll
            if r2.length < len then none
            else match dp.2 (r2.take len) with
              | some items => some (.list items, r2.drop len)
              | none => none,
     fun data =>
      match data with
      | [] => some []
      | _ :: _ =>
        match dp.1 data with
        | some (it, rest) =>
          match dp.2 rest with
          | some its => some (it :: its)
          | none => none
        | none => none)

/-- Decode a single item off the front of the input. -/
def decodeOne (fuel : Nat) (data : List Nat) : Option (Item × List Nat) :=
  (decodeFns fuel).1 data

/-- Decode a sequence of items until the input is exhausted. -/
def decodeSeq (fuel : Nat) (data : List Nat) : Option (List Item) :=
  (decodeFns fuel).2 data

/-- Modelled from the spec: the generic recursive byte-list decoding
primitive, `decode(bytes) -> list of byte-strings | nested lists`; fails
on malformed length prefixes and on trailing junk. -/
def decodeRlp (data : List Nat) : Except Err Item :=
  match decodeOne (2 * data.length + 2) data with
  | some (item, []) => .ok item
  | some (_, _ :: _) => .error (.badData "unexpected junk after rlp payload")
  | none => .error (.badData "data too short")

end Rlp

namespace Ethers

/-- An access list: ordered pairs of (address bytes, ordered storage-key
byte sequences). -/
abbrev AccessList := List (List Nat × List (List Nat))

/-- A secp256k1 signature as held by the library's `Signature` value:
recovery parity and the two scalars. -/
structure Sig where
  yParity : Nat
  r : Nat
  s : Nat
deriving Repr, DecidableEq

/-- Modelled from the spec: the address validator/normalizer,
`normalize(string|bytes) -> 20-byte checksummed address`, failing on
malformed input. Addresses are modelled at byte level (checksum casing is
not observable there); `none` models the absent/empty-string sentinel an
unset field holds, which the validator rejects. -/
def getAddress : Option (List Nat) → Except Err (List Nat)
  | none => .error (.invalidArgument "address" "invalid address" "")
  | some bs =>
    if bs.length = 20 then .ok bs
    else .error (.invalidArgument "address" "invalid address" (hexlify bs))

/-- Modelled from the spec: `formatNumber` — minimal big-endian encoding
of an unsigned integer (zero encodes as the empty byte sequence),
rejecting values wider than 32 bytes. -/
def formatNumber (n : Nat) (name : String) : Except Err (List Nat) :=
  if (beBytes n).length ≤ 32 then .ok (beBytes n)
  else .error (.invalidArgument name "value too large" "")

/-- Modelled from the spec: `handleUint` — decode a field element as an
unsigned integer bounded by `2 ^ 256 - 1`; a nested list is malformed. -/
def handleUint (it : Rlp.Item) (param : String) : Except Err Nat :=
  match it with
  | .bytes bs =>
    if fromBe bs < 2 ^ 256 then .ok (fromBe bs)
    else .error (.invalidArgument param "value exceeds uint size" "")
  | .list _ => .error (.invalidArgument param "invalid uint" "")

/-- Modelled from the spec: `handleNumber` — decode a field element as a
plain bounded number (the safe-integer range `< 2 ^ 53`). -/
def handleNumber (it : Rlp.Item) (param : String) : Except Err Nat :=
  match it with
  | .bytes bs =>
    if fromBe bs < 2 ^ 53 then .ok (fromBe bs)
    else .error (.invalidArgument param "value exceeds safe integer range" "")
  | .list _ => .error (.invalidArgument param "invalid number" "")

/-- Modelled from the spec: `handleAddress` — an empty element decodes to
absent, anything else must validate as an address. -/
def handleAddress (it : Rlp.Item) : Except Err (Option (List Nat)) :=
  match it with
  | .bytes [] => .ok none
  | .bytes bs => (getAddress (some bs)).map some
  | .list _ => .error (.invalidArgument "address" "invalid address" "")

/-- Modelled from the spec: `hexlify` applied to a decoded field — the
element must be a byte string, not a nested list. -/
def hexBytes (it : Rlp.Item) : Except Err (List Nat) :=
  match it with
  | .bytes bs => .ok bs
  | .list _ => .error (.invalidArgument "value" "invalid BytesLike value" "")

/-- Modelled from the spec: storage-key validation inside `accessListify`
— every storage key is exactly 32 bytes. -/
def fmtKeys : List (List Nat) → Except Err (List (List Nat))
  | [] => .ok []
  | k :: ks =>
    if k.length = 32 then (fmtKeys ks).map (k :: ·)
    else .error (.invalidArgument "storageKey" "invalid slot" "")

/-- Modelled from the spec: the pair-by-pair body of `formatAccessList` —
each pair becomes the two-element list [address bytes, storage-key list]
after validating the address and every key. -/
def fmtPairs : AccessList → Except Err (List Rlp.Item)
  | [] => .ok []
  | (a, ks) :: rest => do
    let a2 ← getAddress (some a)
    let ks2 ← fmtKeys ks
    let tail ← fmtPairs rest
    .ok (Rlp.Item.list [.bytes a2, .list (ks2.map Rlp.Item.bytes)] :: tail)

/-- Modelled from the spec: `formatAccessList` — the nested-list encoding
of an access list; the empty access list encodes as the empty list. -/
def formatAccessList (al : AccessList) : Except Err Rlp.Item :=
  (fmtPairs al).map Rlp.Item.list

/-- The item a valid access-list pair formats to: the two-element list
[address bytes, storage-key list]. -/
def alPairItem (p : List Nat × List (List Nat)) : Rlp.Item :=
  .list [.bytes p.1, .list (p.2.map Rlp.Item.bytes)]

/-- Modelled from the spec: storage-key decoding inside
`handleAccessList` — every element must be a 32-byte string. -/
def parseKeys : List Rlp.Item → Except Err (List (List Nat))
  | [] => .ok []
  | .bytes k :: ks =>
    if k.length = 32 then (parseKeys ks).map (k :: ·)
    else .error (.invalidArgument "accessList" "invalid slot" "")
  | .list _ :: _ => .error (.invalidArgument "accessList" "invalid slot" "")

/-- Modelled from the spec: the pair-by-pair body of `handleAccessList` —
each decoded pair must be a two-element list of an address byte string
and a storage-key list (the address slot fails address validation when
it is a nested list, a non-list key slot fails key validation). -/
def parsePairs : List Rlp.Item → Except Err AccessList
  | [] => .ok []
  | it :: rest =>
    match it with
    | .bytes _ => .error (.invalidArgument "accessList" "invalid slot set" "")
    | .list pair =>
      match pair with
      | [x, y] =>
        match x with
        | .list _ => .error (.invalidArgument "accessList" "invalid address" "")
        | .bytes a =>
          match y with
          | .bytes _ => .error (.invalidArgument "accessList" "invalid slot" "")
          | .list ks => do
            let a2 ← getAddress (some a)
            let ks2 ← parseKeys ks
            let tail ← parsePairs rest
            .ok ((a2, ks2) :: tail)
      | _ => .error (.invalidArgument "accessList" "invalid slot set" "")

/-- Modelled from the spec: `handleAccessList` — decode field element 8
into an access list, failing if the shape is malformed. -/
def handleAccessList (it : Rlp.Item) (param : String) : Except Err AccessList :=
  match it with
  | .list pairs => parsePairs pairs
  | .bytes _ => .error (.invalidArgument param "invalid access list" "")

/-- Modelled from the spec: `accessListify` as used by the base class's
access-list setter — validates every address and storage key. -/
def accessListify : AccessList → Except Err AccessList
  | [] => .ok []
  | (a, ks) :: rest => do
    let a2 ← getAddress (some a)
    let ks2 ← fmtKeys ks
    let tail ← accessListify rest
    .ok ((a2, ks2) :: tail)

/-- Modelled from the spec: the shared signature-field parsing routine
(`parseEipSignature`) — takes the three raw trailing fields, validates
yParity ∈ 0, 1 and that each scalar fits 32 bytes, and yields the
signature. -/
def parseEipSignature (fields : List Rlp.Item) : Except Err Sig :=
  match fields with
  | [yI, rI, sI] =>
    match yI with
    | .bytes yb =>
      if fromBe yb = 0 ∨ fromBe yb = 1 then
        match rI, sI with
        | .bytes rb, .bytes sb =>
          if rb.length ≤ 32 then
            if sb.length ≤ 32 then .ok { yParity := fromBe yb, r := fromBe rb, s := fromBe sb }
            else .error (.invalidArgument "signature.s" "value out of range" "")
          else .error (.invalidArgument "signature.r" "value out of range" "")
        | _, _ => .error (.invalidArgument "signature" "invalid signature" "")
      else .error (.invalidArgument "yParity" "invalid yParity" "")
    | .list _ => .error (.invalidArgument "yParity" "invalid yParity" "")
  | _ => .error (.invalidArgument "signature" "invalid signature" "")

/-- Modelled from the spec: the base `Transaction` nonce setter
(`getNumber` — a plain bounded number). -/
def setNonce (n : Nat) : Except Err Nat :=
  if n < 2 ^ 53 then .ok n
  else .error (.invalidArgument "nonce" "invalid number" "")

/-- The mutable field state of a CIP-64 transaction value object: the
base `Transaction` fields plus the class's own `feeCurrency`. `none`
models an absent/never-assigned field (for `feeCurrency`, the
empty-string/undefined sentinel of a never-assigned private field). -/
structure Cip64Fields where
  chainId : Option Nat
  nonce : Option Nat
  maxPriorityFeePerGas : Option Nat
  maxFeePerGas : Option Nat
  gasPrice : Option Nat
  gasLimit : Option Nat
  «to» : Option (List Nat)
  value : Option Nat
  data : Option (List Nat)
  accessList : Option AccessList
  feeCurrency : Option (List Nat)
  signature : Option Sig
deriving Repr

end Ethers

/-- The CIP-64 type discriminant, 123 = 0x7b. -/
def CIP_64_TYPE_NUMBER : Nat := 123

/-- The field-count validation message of `parseCip64`. -/
def fcMsg : String := "invalid field count for transaction type: CIP_64_TYPE_NUMBER"

namespace Celo

open Ethers

/-- The 10-element field array built by `Cip64Transaction.serialize`
(src.ts/chain/celo.ts, the array literal): each absent numeric field
substituted with zero, `to` validated or empty, `data` defaulted to
empty, the access list formatted, and `feeCurrency` validated last. -/
def mkFields (tx : Cip64Fields) : Except Err (List Rlp.Item) := do
  let f0 ← formatNumber (tx.chainId.getD 0) "chainId"
  let f1 ← formatNumber (tx.nonce.getD 0) "nonce"
  let f2 ← formatNumber (tx.maxPriorityFeePerGas.getD 0) "maxPriorityFeePerGas"
  let f3 ← formatNumber (tx.maxFeePerGas.getD 0) "maxFeePerGas"
  let f4 ← formatNumber (tx.gasLimit.getD 0) "gasLimit"
  let f5 ← (match tx.«to» with
    | some a => getAddress (some a)
    | none => .ok [])
  let f6 ← formatNumber (tx.value.getD 0) "value"
  let f7 := tx.data.getD []
  let f8 ← formatAccessList (tx.accessList.getD [])
  let f9 ← getAddress tx.feeCurrency
  .ok [.bytes f0, .bytes f1, .bytes f2, .bytes f3, .bytes f4, .bytes f5, .bytes f6, .bytes f7, f8, .bytes f9]

/-- `Cip64Transaction.serialize` (src.ts/chain/celo.ts): build the field
array, append the three signature fields when a signature is supplied,
encode the list and prepend the 0x7b type tag. -/
def serialize (tx : Cip64Fields) (signature : Option Sig) : Except Err (List Nat) := do
  let base ← mkFields tx
  let fields ← (match signature with
    | none => .ok base
    | some sig => do
      let y ← formatNumber sig.yParity "yParity"
      .ok (base ++ [.bytes y, .bytes (beBytes sig.r), .bytes (beBytes sig.s)]))
  .ok (CIP_64_TYPE_NUMBER :: Rlp.rlpEncodeTx (.list fields))

/-- The `unsignedSerialized` getter: serialize with no signature. -/
def unsignedSerialized (tx : Cip64Fields) : Except Err (List Nat) :=
  serialize tx none

/-- The `serialized` getter: requires a signature (else the
unsupported-operation error suggesting `.unsignedSerialized`); with one,
serialize including it. -/
def serialized (tx : Cip64Fields) : Except Err (List Nat) :=
  match tx.signature with
  | none => .error (.unsupportedOperation
      "cannot serialize unsigned transaction; maybe you meant .unsignedSerialized" ".serialized")
  | some sig => serialize tx (some sig)

/-- The `CeloTransactionLike` record assembled by
`Cip64Transaction.parseCip64`. -/
structure ParsedTx where
  type : Nat
  chainId : Nat
  nonce : Nat
  maxPriorityFeePerGas : Nat
  maxFeePerGas : Nat
  gasPrice : Option Nat
  gasLimit : Nat
  «to» : Option (List Nat)
  value : Nat
  data : List Nat
  accessList : Ethers.AccessList
  feeCurrency : Option (List Nat)
  hash : Option (List Nat)
  signature : Option Sig
deriving Repr

/-- The per-field decoding body of `Cip64Transaction.parseCip64`, run
once the field count has been validated; the digest primitive is passed
in as `keccak`. -/
def parseBody (keccak : List Nat → List Nat) (data : List Nat) (fs : List Rlp.Item) :
    Except Err ParsedTx := do
  let mp ← handleUint (fs.getD 2 (.bytes [])) "maxPriorityFeePerGas"
  let mf ← handleUint (fs.getD 3 (.bytes [])) "maxFeePerGas"
  let cid ← handleUint (fs.getD 0 (.bytes [])) "chainId"
  let nn ← handleNumber (fs.getD 1 (.bytes [])) "nonce"
  let gl ← handleUint (fs.getD 4 (.bytes [])) "gasLimit"
  let toA ← handleAddress (fs.getD 5 (.bytes []))
  let v ← handleUint (fs.getD 6 (.bytes [])) "value"
  let d ← hexBytes (fs.getD 7 (.bytes []))
  let al ← handleAccessList (fs.getD 8 (.bytes [])) "accessList"
  let fc ← handleAddress (fs.getD 9 (.bytes []))
  let tx : ParsedTx :=
    { type := CIP_64_TYPE_NUMBER, chainId := cid, nonce := nn,
      maxPriorityFeePerGas := mp, maxFeePerGas := mf, gasPrice := none,
      gasLimit := gl, «to» := toA, value := v, data := d, accessList := al,
      feeCurrency := fc, hash := none, signature := none }
  if fs.length = 10 then .ok tx
  else do
    let sig ← parseEipSignature (fs.drop 10)
    .ok { tx with hash := some (keccak data), signature := some sig }

/-- `Cip64Transaction.parseCip64` (src.ts/chain/celo.ts): drop the type
tag, decode the remainder, require exactly 10 or 13 elements (else the
field-count argument error carrying the raw bytes in hex), then decode
the fields; a 13-element payload additionally gets the digest of the
whole raw input as hash and the parsed trailing signature. -/
def parseCip64 (keccak : List Nat → List Nat) (data : List Nat) : Except Err ParsedTx := do
  let decoded ← Rlp.decodeRlp (data.drop 1)
  match decoded with
  | .list fs =>
    if fs.length = 10 ∨ fs.length = 13 then parseBody keccak data fs
    else .error (.invalidArgument "data" fcMsg (hexlify data))
  | .bytes _ => .error (.invalidArgument "data" fcMsg (hexlify data))

end Celo

namespace Rpc

/-- The first argument object of an outgoing JSON-RPC call: a
`feeCurrency` slot plus the other keys, kept opaque. -/
structure ArgObj where
  feeCurrency : Option String
  others : List (String × String)
deriving Repr, DecidableEq

/-- An outgoing JSON-RPC request body: method name, argument objects,
and an opaque request id. -/
structure RequestBody where
  method : String
  args : List ArgObj
  id : Nat
deriving Repr, DecidableEq

/-- The chain-specific custom-data bag of a transaction request. -/
structure CustomDataS where
  feeCurrency : Option String
deriving Repr, DecidableEq

/-- The transaction carried by a perform-action context: the fee
currency either as a first-class property or inside custom data. -/
structure CtxTx where
  feeCurrency : Option String
  customData : Option CustomDataS
deriving Repr, DecidableEq

/-- A perform-action context: the action name and its transaction. -/
structure ActionCtx where
  method : String
  transaction : CtxTx
deriving Repr, DecidableEq

/-- JavaScript truthiness of an optional string (absent and the empty
string are falsy). -/
def truthyS : Option String → Bool
  | none => false
  | some s => !(s == "")

/-- The standalone variant's rewrite condition: the outgoing request is
`eth_estimateGas`, the context action is `estimateGas`, and the
context's transaction declares a (truthy) `feeCurrency` property. -/
def celoShouldInject (req : RequestBody) (ctx : ActionCtx) : Bool :=
  (req.method == "eth_estimateGas") && (ctx.method == "estimateGas")
    && truthyS ctx.transaction.feeCurrency

/-- The plugin variant's rewrite condition: as above, but the fee
currency is read from the transaction's `customData` bag. -/
def pluginShouldInject (req : RequestBody) (ctx : ActionCtx) : Bool :=
  (req.method == "eth_estimateGas") && (ctx.method == "estimateGas")
    && (match ctx.transaction.customData with
        | some cd => truthyS cd.feeCurrency
        | none => false)

/-- `celoAlfajores.getRpcRequest` (src.ts/chain/celo.ts): when the
request is non-null and the condition holds, set `feeCurrency` on
`args[0]` (writing through a missing first argument is the
cannot-set-property runtime error); otherwise return the request as is. -/
def getRpcRequest (request : Option RequestBody) (ctx : ActionCtx) :
    Except Err (Option RequestBody) :=
  match request with
  | none => .ok none
  | some req =>
    if celoShouldInject req ctx then
      match req.args with
      | [] => .error (.badData "cannot set properties of undefined")
      | a :: rest =>
        .ok (some { req with args := { a with feeCurrency := ctx.transaction.feeCurrency } :: rest })
    else .ok (some req)

/-- `CeloRpcInterceptorPlugin.intercept` (plugin variant): same rewrite,
reading the fee currency from `customData`, on a non-null request. -/
def intercept (req : RequestBody) (ctx : ActionCtx) : Except Err RequestBody :=
  if pluginShouldInject req ctx then
    match req.args with
    | [] => .error (.badData "cannot set properties of undefined")
    | a :: rest =>
      .ok { req with args :=
        { a with feeCurrency :=
            (match ctx.transaction.customData with
             | some cd => cd.feeCurrency
             | none => none) } :: rest }
  else .ok req

end Rpc

namespace Plugin

open Ethers

/-- The 10-element field array built by the plugin variant's
`Cip64Transaction.serialize` (unnamed source, lines 44-65). -/
def mkFields (tx : Cip64Fields) : Except Err (List Rlp.Item) := do
  let f0 ← formatNumber (tx.chainId.getD 0) "chainId"
  let f1 ← formatNumber (tx.nonce.getD 0) "nonce"
  let f2 ← formatNumber (tx.maxPriorityFeePerGas.getD 0) "maxPriorityFeePerGas"
  let f3 ← formatNumber (tx.maxFeePerGas.getD 0) "maxFeePerGas"
  let f4 ← formatNumber (tx.gasLimit.getD 0) "gasLimit"
  let f5 ← (match tx.«to» with
    | some a => getAddress (some a)
    | none => .ok [])
  let f6 ← formatNumber (tx.value.getD 0) "value"
  let f7 := tx.data.getD []
  let f8 ← formatAccessList (tx.accessList.getD [])
  let f9 ← getAddress tx.feeCurrency
  .ok [.bytes f0, .bytes f1, .bytes f2, .bytes f3, .bytes f4, .bytes f5, .bytes f6, .bytes f7, f8, .bytes f9]

/-- The plugin variant's `Cip64Transaction.serialize`. -/
def serialize (tx : Cip64Fields) (signature : Option Sig) : Except Err (List Nat) := do
  let base ← mkFields tx
  let fields ← (match signature with
    | none => .ok base
    | some sig => do
      let y ← formatNumber sig.yParity "yParity"
      .ok (base ++ [.bytes y, .bytes (beBytes sig.r), .bytes (beBytes sig.s)]))
  .ok (CIP_64_TYPE_NUMBER :: Rlp.rlpEncodeTx (.list fields))

/-- The plugin variant's `unsignedSerialized` getter. -/
def unsignedSerialized (tx : Cip64Fields) : Except Err (List Nat) :=
  serialize tx none

/-- The plugin variant's `serialized` getter. -/
def serialized (tx : Cip64Fields) : Except Err (List Nat) :=
  match tx.signature with
  | none => .error (.unsupportedOperation
      "cannot serialize unsigned transaction; maybe you meant .unsignedSerialized" ".serialized")
  | some sig => serialize tx (some sig)

/-- The chain-specific custom-data bag at byte level (the plugin parse
result stores the fee currency here). -/
structure CustomDataB where
  feeCurrency : Option (List Nat)
deriving Repr, DecidableEq

/-- The `TransactionLike` record assembled by the plugin's
`parseCip64`: as the standalone variant's, but with the fee currency
inside `customData`. -/
structure ParsedTx where
  type : Nat
  chainId : Nat
  nonce : Nat
  maxPriorityFeePerGas : Nat
  maxFeePerGas : Nat
  gasPrice : Option Nat
  gasLimit : Nat
  «to» : Option (List Nat)
  value : Nat
  data : List Nat
  accessList : Ethers.AccessList
  customData : Option CustomDataB
  hash : Option (List Nat)
  signature : Option Sig
deriving Repr

/-- The per-field decoding body of the plugin's `parseCip64`. -/
def parseBody (keccak : List Nat → List Nat) (data : List Nat) (fs : List Rlp.Item) :
    Except Err ParsedTx := do
  let mp ← handleUint (fs.getD 2 (.bytes [])) "maxPriorityFeePerGas"
  let mf ← handleUint (fs.getD 3 (.bytes [])) "maxFeePerGas"
  let cid ← handleUint (fs.getD 0 (.bytes [])) "chainId"
  let nn ← handleNumber (fs.getD 1 (.bytes [])) "nonce"
  let gl ← handleUint (fs.getD 4 (.bytes [])) "gasLimit"
  let toA ← handleAddress (fs.getD 5 (.bytes []))
  let v ← handleUint (fs.getD 6 (.bytes [])) "value"
  let d ← hexBytes (fs.getD 7 (.bytes []))
  let al ← handleAccessList (fs.getD 8 (.bytes [])) "accessList"
  let fc ← handleAddress (fs.getD 9 (.bytes []))
  let tx : ParsedTx :=
    { type := CIP_64_TYPE_NUMBER, chainId := cid, nonce := nn,
      maxPriorityFeePerGas := mp, maxFeePerGas := mf, gasPrice := none,
      gasLimit := gl, «to» := toA, value := v, data := d, accessList := al,
      customData := some { feeCurrency := fc }, hash := none, signature := none }
  if fs.length = 10 then .ok tx
  else do
    let sig ← parseEipSignature (fs.drop 10)
    .ok { tx with hash := some (keccak data), signature := some sig }

/-- `CeloTransactionPlugin.parseCip64` (unnamed source, lines 143-176). -/
def parseCip64 (keccak : List Nat → List Nat) (data : List Nat) : Except Err ParsedTx := do
  let decoded ← Rlp.decodeRlp (data.drop 1)
  match decoded with
  | .list fs =>
    if fs.length = 10 ∨ fs.length = 13 then parseBody keccak data fs
    else .error (.invalidArgument "data" fcMsg (hexlify data))
  | .bytes _ => .error (.invalidArgument "data" fcMsg (hexlify data))

/-- A loosely-typed `TransactionLike` input to the plugin's `create`. -/
structure TxLike where
  type : Option Nat
  chainId : Option Nat
  nonce : Option Nat
  maxPriorityFeePerGas : Option Nat
  maxFeePerGas : Option Nat
  gasPrice : Option Nat
  gasLimit : Option Nat
  «to» : Option (List Nat)
  value : Option Nat
  data : Option (List Nat)
  accessList : Option Ethers.AccessList
  customData : Option CustomDataB
  hash : Option (List Nat)
  signature : Option Sig
deriving Repr

/-- The empty `TransactionLike` (a fresh base transaction). -/
def emptyTxLike : TxLike :=
  { type := none, chainId := none, nonce := none, maxPriorityFeePerGas := none,
    maxFeePerGas := none, gasPrice := none, gasLimit := none, «to» := none,
    value := none, data := none, accessList := none, customData := none,
    hash := none, signature := none }

/-- The possible shapes of the `create` hook's input. -/
inductive FromInput where
  | missing
  | cipInstance (tx : Ethers.Cip64Fields)
  | hexStr (bytes : List Nat)
  | obj (like : TxLike)

/-- The possible results of the `create` hook: a generic base
transaction (fallback), a generic transaction parsed by the base
constructor from raw bytes of another type, or a CIP-64 instance. -/
inductive Created where
  | generic (like : TxLike)
  | genericFromBytes (bytes : List Nat)
  | cip64 (tx : Ethers.Cip64Fields)
deriving Repr

/-- View of a plugin parse result as a `TransactionLike`, for the
re-dispatch `this.create(this.parseCip64(payload))`. -/
def parsedToLike (p : ParsedTx) : TxLike :=
  { type := some p.type, chainId := some p.chainId, nonce := some p.nonce,
    maxPriorityFeePerGas := some p.maxPriorityFeePerGas,
    maxFeePerGas := some p.maxFeePerGas, gasPrice := p.gasPrice,
    gasLimit := some p.gasLimit, «to» := p.«to», value := some p.value,
    data := some p.data, accessList := some p.accessList,
    customData := p.customData, hash := p.hash, signature := p.signature }

/-- The object branch of `CeloTransactionPlugin.create` (unnamed source,
lines 115-133): when the input's type is 123 and `customData` is
present, build a new `Cip64Transaction`, assign `feeCurrency` through
the validating setter (failing on an absent entry), then copy each
present optional field through the base setters; otherwise fall back to
the generic constructor. -/
def createFromObj (like : TxLike) : Except Err Created :=
  if like.type = some CIP_64_TYPE_NUMBER ∧ like.customData.isSome then do
    let fc ← Ethers.getAddress (like.customData.bind CustomDataB.feeCurrency)
    let toV ← (match like.«to» with
      | some a => (Ethers.getAddress (some a)).map some
      | none => .ok none)
    let nonceV ← (match like.nonce with
      | some n => (Ethers.setNonce n).map some
      | none => .ok none)
    let alV ← (match like.accessList with
      | some al => (Ethers.accessListify al).map some
      | none => .ok none)
    .ok (.cip64
      { chainId := like.chainId, nonce := nonceV,
        maxPriorityFeePerGas := like.maxPriorityFeePerGas,
        maxFeePerGas := like.maxFeePerGas, gasPrice := like.gasPrice,
        gasLimit := like.gasLimit, «to» := toV, value := like.value,
        data := like.data, accessList := alV, feeCurrency := some fc,
        signature := like.signature })
  else .ok (.generic like)

/-- `CeloTransactionPlugin.create` (unnamed source, lines 96-137):
dispatch over the input shape — absent input gives a fresh base
transaction, an existing CIP-64 instance is returned unchanged, raw
bytes whose first byte is 123 are parsed and re-dispatched, other raw
bytes go to the generic constructor, and object input goes to the
object branch. -/
def create (keccak : List Nat → List Nat) (input : FromInput) : Except Err Created :=
  match input with
  | .missing => .ok (.generic emptyTxLike)
  | .cipInstance tx => .ok (.cip64 tx)
  | .hexStr bytes =>
    if bytes.headD 0 = CIP_64_TYPE_NUMBER then do
      let parsed ← parseCip64 keccak bytes
      createFromObj (parsedToLike parsed)
    else .ok (.genericFromBytes bytes)
  | .obj like => createFromObj like

end Plugin

/-- Field-for-field view of a plugin parse result as the standalone
variant's parse result (the fee currency moves from `customData` to the
top-level property). -/
def pluginToCelo (p : Plugin.ParsedTx) : Celo.ParsedTx :=
  { type := p.type, chainId := p.chainId, nonce := p.nonce,
    maxPriorityFeePerGas := p.maxPriorityFeePerGas,
    maxFeePerGas := p.maxFeePerGas, gasPrice := p.gasPrice,
    gasLimit := p.gasLimit, «to» := p.«to», value := p.value, data := p.data,
    accessList := p.accessList,
    feeCurrency := (match p.customData with
      | some cd => cd.feeCurrency
      | none => none),
    hash := p.hash, signature := p.signature }

/-! ## Concrete test vectors (used by the witnesses of the claims below) -/

/-- A 20-byte address of `0x11` bytes. -/
def wAddr : List Nat := List.replicate 20 17

/-- An otherwise-empty transaction with only the fee currency assigned. -/
def wTxU : Ethers.Cip64Fields :=
  { chainId := none, nonce := none, maxPriorityFeePerGas := none, maxFeePerGas := none,
    gasPrice := none, gasLimit := none, «to» := none, value := none, data := none,
    accessList := none, feeCurrency := some wAddr, signature := none }

/-- The same transaction carrying a signature. -/
def wTxS : Ethers.Cip64Fields := { wTxU with signature := some ⟨1, 2, 3⟩ }

/-- A transaction with no field ever assigned. -/
def wTxNone : Ethers.Cip64Fields :=
  { chainId := none, nonce := none, maxPriorityFeePerGas := none, maxFeePerGas := none,
    gasPrice := none, gasLimit := none, «to» := none, value := none, data := none,
    accessList := none, feeCurrency := none, signature := none }

/-- A fixed digest function standing in for keccak256 in witnesses. -/
def wKeccak : List Nat → List Nat := fun _ => List.replicate 32 7

/-- A well-shaped signed (13-element) raw payload with empty fee currency. -/
def wData13 : List Nat :=
  [123, 205, 128, 128, 128, 128, 128, 128, 128, 128, 192, 128, 128, 1, 1]

/-- The decoded field items of `wData13`. -/
def wFs13 : List Rlp.Item :=
  [.bytes [], .bytes [], .bytes [], .bytes [], .bytes [], .bytes [], .bytes [], .bytes [],
   .list [], .bytes [], .bytes [], .bytes [1], .bytes [1]]

/-- A well-shaped unsigned (10-element) raw payload with empty fee currency. -/
def wData10 : List Nat := [123, 202, 128, 128, 128, 128, 128, 128, 128, 128, 192, 128]

/-- The decoded field items of `wData10`. -/
def wFs10 : List Rlp.Item :=
  [.bytes [], .bytes [], .bytes [], .bytes [], .bytes [], .bytes [], .bytes [], .bytes [],
   .list [], .bytes []]

/-- The parse result of `wData13` under `wKeccak`. -/
def wParsed13 : Celo.ParsedTx :=
  { type := 123, chainId := 0, nonce := 0, maxPriorityFeePerGas := 0, maxFeePerGas := 0,
    gasPrice := none, gasLimit := 0, «to» := none, value := 0, data := [], accessList := [],
    feeCurrency := none, hash := some (List.replicate 32 7), signature := some ⟨0, 1, 1⟩ }

/-- The parse result of `wData10`. -/
def wParsed10 : Celo.ParsedTx :=
  { type := 123, chainId := 0, nonce := 0, maxPriorityFeePerGas := 0, maxFeePerGas := 0,
    gasPrice := none, gasLimit := 0, «to» := none, value := 0, data := [], accessList := [],
    feeCurrency := none, hash := none, signature := none }

/-- The first argument object of a gas-estimation request. -/
def wArg : Rpc.ArgObj := { feeCurrency := none, others := [("from", "0xabc")] }

/-- An outgoing gas-estimation request. -/
def wReq : Rpc.RequestBody := { method := "eth_estimateGas", args := [wArg], id := 1 }

/-- A custom-data bag declaring a fee currency. -/
def wCustomData : Rpc.CustomDataS := { feeCurrency := some "0xfee" }

/-- A perform-action context whose transaction declares a fee currency
both as a property and inside custom data. -/
def wCtx : Rpc.ActionCtx :=
  { method := "estimateGas",
    transaction := { feeCurrency := some "0xfee", customData := some wCustomData } }

/-- A `TransactionLike` with type 123 and a custom-data bag carrying no
fee-currency entry. -/
def wLike : Plugin.TxLike :=
  { type := some 123, chainId := none, nonce := none, maxPriorityFeePerGas := none,
    maxFeePerGas := none, gasPrice := none, gasLimit := none, «to» := none, value := none,
    data := none, accessList := none, customData := some { feeCurrency := none },
    hash := none, signature := none }

/-! ## Monadic computation lemmas for `Except` -/

theorem ok_bind {α β : Type} (a : α) (f : α → Except Err β) :
    (Except.ok a >>= f) = f a := rfl

theorem error_bind {α β : Type} (e : Err) (f : α → Except Err β) :
    ((Except.error e : Except Err α) >>= f) = .error e := rfl

theorem map_ok {α β : Type} (g : α → β) (a : α) :
    (Except.ok a : Except Err α).map g = .ok (g a) := rfl

theorem map_error {α β : Type} (g : α → β) (e : Err) :
    (Except.error e : Except Err α).map g = .error e := rfl

theorem bind_error_inv {α β : Type} {x : Except Err α} {f : α → Except Err β} {e : Err}
    (h : (x >>= f) = .error e) : x = .error e ∨ ∃ a, x = .ok a ∧ f a = .error e := by
  match x, h with
  | .error e2, h =>
    left
    rw [error_bind] at h
    injection h with h2
    rw [h2]
  | .ok a, h =>
    right
    rw [ok_bind] at h
    exact ⟨a, rfl, h⟩

theorem bind_ok_inv {α β : Type} {x : Except Err α} {f : α → Except Err β} {b : β}
    (h : (x >>= f) = .ok b) : ∃ a, x = .ok a ∧ f a = .ok b := by
  match x, h with
  | .error e2, h =>
    rw [error_bind] at h
    exact absurd h (by simp)
  | .ok a, h =>
    rw [ok_bind] at h
    exact ⟨a, rfl, h⟩

/-! ## Big-endian byte rendering -/

theorem beBytesF_zero (f : Nat) : beBytesF f 0 = [] := by
  cases f <;> simp [beBytesF]

theorem beBytesF_congr : ∀ f g n, n ≤ f → n ≤ g → beBytesF f n = beBytesF g n := by
  intro f
  induction f with
  | zero =>
    intro g n hf _
    obtain rfl : n = 0 := by omega
    rw [beBytesF_zero, beBytesF_zero]
  | succ f ih =>
    intro g n hf hg
    rcases Nat.eq_zero_or_pos n with rfl | hpos
    · rw [beBytesF_zero, beBytesF_zero]
    · obtain ⟨g', rfl⟩ : ∃ g', g = g' + 1 := ⟨g - 1, by omega⟩
      have hd : n / 256 < n := Nat.div_lt_self hpos (by norm_num)
      simp only [beBytesF, if_neg (Nat.pos_iff_ne_zero.mp hpos)]
      rw [ih g' (n / 256) (by omega) (by omega)]

theorem beBytes_zero : beBytes 0 = [] := rfl

theorem beBytes_pos (n : Nat) (h : n ≠ 0) :
    beBytes n = beBytes (n / 256) ++ [n % 256] := by
  obtain ⟨m, rfl⟩ : ∃ m, n = m + 1 := ⟨n - 1, by omega⟩
  have hd : (m + 1) / 256 < m + 1 := Nat.div_lt_self (by omega) (by norm_num)
  have h1 : beBytes (m + 1) = beBytesF m ((m + 1) / 256) ++ [(m + 1) % 256] := by
    show beBytesF (m + 1) (m + 1) = _
    simp only [beBytesF, if_neg h]
  rw [h1, beBytesF_congr m ((m + 1) / 256) ((m + 1) / 256) (by omega) le_rfl]
  rfl

theorem fromBe_append_one (xs : List Nat) (b : Nat) :
    fromBe (xs ++ [b]) = fromBe xs * 256 + b := by
  simp [fromBe, List.foldl_append]

theorem fromBe_beBytes : ∀ n, fromBe (beBytes n) = n := by
  intro n
  induction n using Nat.strong_induction_on with
  | _ n ih =>
    rcases Nat.eq_zero_or_pos n with rfl | hpos
    · rfl
    · have hd : n / 256 < n := Nat.div_lt_self hpos (by norm_num)
      rw [beBytes_pos n (by omega), fromBe_append_one, ih (n / 256) hd]
      have := Nat.div_add_mod n 256
      omega

theorem beBytes_length_le : ∀ k n, n < 256 ^ k → (beBytes n).length ≤ k := by
  intro k
  induction k with
  | zero =>
    intro n h
    obtain rfl : n = 0 := by simpa using h
    simp [beBytes_zero]
  | succ k ih =>
    intro n h
    rcases Nat.eq_zero_or_pos n with rfl | hpos
    · simp [beBytes_zero]
    · rw [beBytes_pos n (by omega)]
      have hdiv : n / 256 < 256 ^ k := by
        rw [Nat.div_lt_iff_lt_mul (by norm_num)]
        calc n < 256 ^ (k + 1) := h
        _ = 256 ^ k * 256 := by ring
      have := ih (n / 256) hdiv
      simp only [List.length_append, List.length_singleton]
      omega

theorem beBytes_ne_nil (n : Nat) (h : n ≠ 0) : beBytes n ≠ [] := by
  rw [beBytes_pos n h]
  simp

namespace Rlp

/-! ## Encoding and decoding equations -/

theorem encodeF_bytes (f : Nat) (bs : List Nat) :
    encodeF (f + 1) (.bytes bs) = encBytes bs := rfl

theorem encodeF_list (f : Nat) (items : List Item) :
    encodeF (f + 1) (.list items)
      = encLen 192 (encodeSeqF f items).length ++ encodeSeqF f items := rfl

theorem encodeSeqF_nil (f : Nat) : encodeSeqF f [] = [] := rfl

theorem encodeSeqF_cons (f : Nat) (i : Item) (is : List Item) :
    encodeSeqF f (i :: is) = encodeF f i ++ encodeSeqF f is := rfl

theorem encLen_short (o l : Nat) (h : l < 56) : encLen o l = [o + l] := by
  simp [encLen, h]

theorem encLen_long (o l : Nat) (h : ¬ l < 56) :
    encLen o l = (o + 55 + (beBytes l).length) :: beBytes l := by
  simp [encLen, h]

theorem encLen_ne_nil (o l : Nat) : encLen o l ≠ [] := by
  by_cases h : l < 56
  · rw [encLen_short o l h]; simp
  · rw [encLen_long o l h]; simp

theorem encBytes_ne_nil (bs : List Nat) : encBytes bs ≠ [] := by
  unfold encBytes
  by_cases h : bs.length = 1 ∧ bs.headD 0 < 128
  · rw [if_pos h]
    intro hnil
    rw [hnil] at h
    simp at h
  · rw [if_neg h]
    intro hnil
    exact encLen_ne_nil 128 bs.length (List.append_eq_nil.mp hnil).1

theorem encodeF_ne_nil (f : Nat) (it : Item) : encodeF (f + 1) it ≠ [] := by
  cases it with
  | bytes bs => exact encBytes_ne_nil bs
  | list items =>
    rw [encodeF_list]
    intro hnil
    exact encLen_ne_nil 192 _ (List.append_eq_nil.mp hnil).1

theorem decodeSeq_nil (f : Nat) : decodeSeq f [] = some [] := by
  cases f <;> rfl

theorem decodeSeq_cons (f : Nat) (b : Nat) (bs : List Nat) :
    decodeSeq (f + 1) (b :: bs)
      = (match decodeOne f (b :: bs) with
         | some (it, rest) =>
           (match decodeSeq f rest with
            | some its => some (it :: its)
            | none => none)
         | none => none) := rfl

theorem decodeOne_single (f b : Nat) (rest : List Nat) (h : b < 128) :
    decodeOne (f + 1) (b :: rest) = some (.bytes [b], rest) := by
  unfold decodeOne decodeFns
  simp [h]

theorem decodeOne_short_str (f b : Nat) (rest : List Nat)
    (h1 : 128 ≤ b) (h2 : b < 184) (h3 : b - 128 ≤ rest.length) :
    decodeOne (f + 1) (b :: rest)
      = some (.bytes (rest.take (b - 128)), rest.drop (b - 128)) := by
  unfold decodeOne decodeFns
  simp [Nat.not_lt.mpr h1, h2, Nat.not_lt.mpr h3]

theorem decodeOne_long_str (f b : Nat) (rest : List Nat)
    (h1 : 184 ≤ b) (h2 : b < 192) (h3 : b - 183 ≤ rest.length)
    (h4 : fromBe (rest.take (b - 183)) ≤ (rest.drop (b - 183)).length) :
    decodeOne (f + 1) (b :: rest)
      = some (.bytes ((rest.drop (b - 183)).take (fromBe (rest.take (b - 183)))),
              (rest.drop (b - 183)).drop (fromBe (rest.take (b - 183)))) := by
  unfold decodeOne decodeFns
  simp [Nat.not_lt.mpr (show (128 : Nat) ≤ b by omega),
    Nat.not_lt.mpr (show (184 : Nat) ≤ b by omega), h2, Nat.not_lt.mpr h3,
    Nat.not_lt.mpr (show fromBe (rest.take (b - 183)) ≤ rest.length - (b - 183) by
      simpa using h4)]

theorem decodeOne_short_list (f b : Nat) (rest : List Nat)
    (h1 : 192 ≤ b) (h2 : b < 248) (h3 : b - 192 ≤ rest.length) :
    decodeOne (f + 1) (b :: rest)
      = (match decodeSeq f (rest.take (b - 192)) with
         | some items => some (.list items, rest.drop (b - 192))
         | none => none) := by
  unfold decodeOne decodeFns
  simp [Nat.not_lt.mpr (show (128 : Nat) ≤ b by omega),
    Nat.not_lt.mpr (show (184 : Nat) ≤ b by omega),
    Nat.not_lt.mpr (show (192 : Nat) ≤ b by omega), h2, Nat.not_lt.mpr h3, decodeSeq]

theorem encBytes_single (a : Nat) (h : a < 128) : encBytes [a] = [a] := by
  unfold encBytes
  rw [if_pos]
  exact ⟨rfl, by simpa using h⟩

theorem encBytes_not_single (bs : List Nat) (h : ¬(bs.length = 1 ∧ bs.headD 0 < 128)) :
    encBytes bs = encLen 128 bs.length ++ bs := by
  unfold encBytes
  rw [if_neg h]

theorem depthLe_succ {fe : Nat} {it : Item} (h : DepthLe fe it) : ∃ m, fe = m + 1 := by
  cases h with
  | bytes n bs => exact ⟨n, rfl⟩
  | list n items _ => exact ⟨n, rfl⟩

theorem good_bytes_len {bs : List Nat} (h : Good (.bytes bs)) : bs.length < 256 ^ 8 := by
  cases h with
  | bytes _ h2 => exact h2

theorem good_list_mem {items : List Item} (h : Good (.list items)) : ∀ i ∈ items, Good i := by
  cases h with
  | list _ h2 => exact h2

theorem decodeOne_long_list (f b : Nat) (rest : List Nat)
    (h1 : 248 ≤ b) (h3 : b - 247 ≤ rest.length)
    (h4 : fromBe (rest.take (b - 247)) ≤ (rest.drop (b - 247)).length) :
    decodeOne (f + 1) (b :: rest)
      = (match decodeSeq f ((rest.drop (b - 247)).take (fromBe (rest.take (b - 247)))) with
         | some items =>
           some (.list items, (rest.drop (b - 247)).drop (fromBe (rest.take (b - 247))))
         | none => none) := by
  unfold decodeOne decodeFns
  simp [Nat.not_lt.mpr (show (128 : Nat) ≤ b by omega),
    Nat.not_lt.mpr (show (184 : Nat) ≤ b by omega),
    Nat.not_lt.mpr (show (192 : Nat) ≤ b by omega),
    Nat.not_lt.mpr (show (248 : Nat) ≤ b by omega), Nat.not_lt.mpr h3,
    Nat.not_lt.mpr (show fromBe (rest.take (b - 247)) ≤ rest.length - (b - 247) by
      simpa using h4), decodeSeq]

/-! ## Decoding the encoder's exact output shapes -/

theorem decodeOne_enc_short_str (f : Nat) (bs rest : List Nat) (h56 : bs.length < 56) :
    decodeOne (f + 1) ((128 + bs.length) :: (bs ++ rest)) = some (.bytes bs, rest) := by
  have key := decodeOne_short_str f (128 + bs.length) (bs ++ rest) (by omega) (by omega)
    (by simp [List.length_append]; try omega)
  rw [show 128 + bs.length - 128 = bs.length from by omega, List.take_left, List.drop_left] at key
  exact key

theorem decodeOne_enc_long_str (f : Nat) (bs rest : List Nat) (h56 : ¬ bs.length < 56)
    (h8 : (beBytes bs.length).length ≤ 8) :
    decodeOne (f + 1)
        ((128 + 55 + (beBytes bs.length).length) :: (beBytes bs.length ++ (bs ++ rest)))
      = some (.bytes bs, rest) := by
  have hll : 0 < (beBytes bs.length).length :=
    List.length_pos.mpr (beBytes_ne_nil _ (by omega))
  have hsub : 128 + 55 + (beBytes bs.length).length - 183 = (beBytes bs.length).length := by
    omega
  have key := decodeOne_long_str f (128 + 55 + (beBytes bs.length).length)
    (beBytes bs.length ++ (bs ++ rest)) (by omega) (by omega)
    (by rw [hsub]; simp [List.length_append])
    (by rw [hsub, List.take_left, fromBe_beBytes, List.drop_left]; simp [List.length_append])
  rw [hsub, List.take_left, fromBe_beBytes, List.drop_left, List.take_left, List.drop_left] at key
  exact key

theorem decodeOne_enc_short_list (f : Nat) (p rest : List Nat) (items : List Item)
    (h56 : p.length < 56) (hseq : decodeSeq f p = some items) :
    decodeOne (f + 1) ((192 + p.length) :: (p ++ rest)) = some (.list items, rest) := by
  have key := decodeOne_short_list f (192 + p.length) (p ++ rest) (by omega) (by omega)
    (by simp [List.length_append]; try omega)
  rw [show 192 + p.length - 192 = p.length from by omega, List.take_left, List.drop_left,
    hseq] at key
  exact key

theorem decodeOne_enc_long_list (f : Nat) (p rest : List Nat) (items : List Item)
    (h56 : ¬ p.length < 56) (hseq : decodeSeq f p = some items) :
    decodeOne (f + 1)
        ((192 + 55 + (beBytes p.length).length) :: (beBytes p.length ++ (p ++ rest)))
      = some (.list items, rest) := by
  have hll : 0 < (beBytes p.length).length :=
    List.length_pos.mpr (beBytes_ne_nil _ (by omega))
  have hsub : 192 + 55 + (beBytes p.length).length - 247 = (beBytes p.length).length := by
    omega
  have key := decodeOne_long_list f (192 + 55 + (beBytes p.length).length)
    (beBytes p.length ++ (p ++ rest)) (by omega)
    (by rw [hsub]; simp [List.length_append])
    (by rw [hsub, List.take_left, fromBe_beBytes, List.drop_left]; simp [List.length_append])
  rw [hsub, List.take_left, fromBe_beBytes, List.drop_left, List.take_left, List.drop_left,
    hseq] at key
  exact key

/-! ## The round-trip theorem: decoding inverts encoding -/

theorem decEnc : ∀ fd : Nat,
    (∀ fe it rest, Good it → DepthLe fe it → 2 * (encodeF fe it).length ≤ fd + 1 →
       decodeOne fd (encodeF fe it ++ rest) = some (it, rest)) ∧
    (∀ fe items, (∀ i ∈ items, Good i) → (∀ i ∈ items, DepthLe fe i) →
       2 * (encodeSeqF fe items).length ≤ fd →
       decodeSeq fd (encodeSeqF fe items) = some items) := by
  intro fd
  induction fd with
  | zero =>
    constructor
    · intro fe it rest _ hd hlen
      obtain ⟨m, rfl⟩ := depthLe_succ hd
      have hpos : 0 < (encodeF (m + 1) it).length := List.length_pos.mpr (encodeF_ne_nil m it)
      omega
    · intro fe items hg hd hlen
      cases items with
      | nil => rw [encodeSeqF_nil, decodeSeq_nil]
      | cons i is =>
        exfalso
        obtain ⟨m, rfl⟩ := depthLe_succ (hd i (List.mem_cons_self i is))
        have hpos : 0 < (encodeF (m + 1) i).length := List.length_pos.mpr (encodeF_ne_nil m i)
        rw [encodeSeqF_cons] at hlen
        simp only [List.length_append] at hlen
        omega
  | succ f ih =>
    obtain ⟨ihP, ihQ⟩ := ih
    constructor
    · intro fe it rest hg hd hlen
      cases hd with
      | bytes n bs =>
        have hblen : bs.length < 256 ^ 8 := good_bytes_len hg
        rw [encodeF_bytes] at hlen ⊢
        by_cases hc : bs.length = 1 ∧ bs.headD 0 < 128
        · obtain ⟨a, rfl⟩ := List.length_eq_one.mp hc.1
          have ha : a < 128 := by simpa using hc.2
          rw [encBytes_single a ha]
          exact decodeOne_single f a rest ha
        · rw [encBytes_not_single bs hc]
          by_cases h56 : bs.length < 56
          · rw [encLen_short 128 bs.length h56]
            simp only [List.cons_append, List.append_assoc, List.nil_append]
            exact decodeOne_enc_short_str f bs rest h56
          · rw [encLen_long 128 bs.length h56]
            simp only [List.cons_append, List.append_assoc, List.nil_append]
            exact decodeOne_enc_long_str f bs rest h56 (beBytes_length_le 8 bs.length hblen)
      | list n items hdi =>
        have hgi := good_list_mem hg
        rw [encodeF_list] at hlen ⊢
        by_cases h56 : (encodeSeqF n items).length < 56
        · have hseq : decodeSeq f (encodeSeqF n items) = some items := by
            apply ihQ n items hgi hdi
            rw [encLen_short 192 _ h56] at hlen
            simp only [List.length_append, List.length_cons, List.length_nil] at hlen
            omega
          rw [encLen_short 192 _ h56]
          simp only [List.cons_append, List.append_assoc, List.nil_append]
          exact decodeOne_enc_short_list f _ rest items h56 hseq
        · have hseq : decodeSeq f (encodeSeqF n items) = some items := by
            apply ihQ n items hgi hdi
            rw [encLen_long 192 _ h56] at hlen
            simp only [List.length_append, List.length_cons, List.length_nil] at hlen
            omega
          rw [encLen_long 192 _ h56]
          simp only [List.cons_append, List.append_assoc, List.nil_append]
          exact decodeOne_enc_long_list f _ rest items h56 hseq
    · intro fe items hg hd hlen
      cases items with
      | nil => rw [encodeSeqF_nil, decodeSeq_nil]
      | cons i is =>
        obtain ⟨m, rfl⟩ := depthLe_succ (hd i (List.mem_cons_self i is))
        have hne : encodeF (m + 1) i ≠ [] := encodeF_ne_nil m i
        have hpos : 0 < (encodeF (m + 1) i).length := List.length_pos.mpr hne
        rw [encodeSeqF_cons] at hlen ⊢
        have hlen2 : 2 * (encodeF (m + 1) i).length
            + 2 * (encodeSeqF (m + 1) is).length ≤ f + 1 := by
          simp only [List.length_append] at hlen
          omega
        obtain ⟨b, bs2, hb⟩ := List.exists_cons_of_ne_nil
          (show encodeF (m + 1) i ++ encodeSeqF (m + 1) is ≠ [] from fun hcontra =>
            hne (List.append_eq_nil.mp hcontra).1)
        rw [hb, decodeSeq_cons, ← hb]
        have h1 : decodeOne f (encodeF (m + 1) i ++ encodeSeqF (m + 1) is)
            = some (i, encodeSeqF (m + 1) is) :=
          ihP (m + 1) i _ (hg i (List.mem_cons_self i is)) (hd i (List.mem_cons_self i is))
            (by omega)
        have h2 : decodeSeq f (encodeSeqF (m + 1) is) = some is :=
          ihQ (m + 1) is (fun j hj => hg j (List.mem_cons_of_mem i hj))
            (fun j hj => hd j (List.mem_cons_of_mem i hj)) (by omega)
        simp only [h1, h2]

/-- Decoding inverts encoding for every well-formed item of the codec's
nesting depth. -/
theorem decodeRlp_encode (it : Item) (hg : Good it) (hd : DepthLe 5 it) :
    decodeRlp (rlpEncodeTx it) = .ok it := by
  have h := (decEnc (2 * (encodeF 5 it).length + 2)).1 5 it [] hg hd (by omega)
  rw [List.append_nil] at h
  unfold decodeRlp rlpEncodeTx
  rw [h]

theorem decodeRlp_error (d : List Nat) (e : Err) (h : decodeRlp d = .error e) :
    ∃ m, e = .badData m := by
  unfold decodeRlp at h
  rcases hone : decodeOne (2 * d.length + 2) d with _ | ⟨it, rest⟩
  · rw [hone] at h
    exact ⟨"data too short", by simpa using h.symm⟩
  · rw [hone] at h
    cases rest with
    | nil => simp at h
    | cons x xs => exact ⟨"unexpected junk after rlp payload", by simpa using h.symm⟩

end Rlp

namespace Ethers

/-! ## Success and inversion lemmas for the modelled helpers -/

/-- An invalid-argument error (as opposed to the unsupported-operation
error or a decoder error). -/
def Err.isInvalidArg (e : Err) : Prop := ∃ n m v, e = .invalidArgument n m v

theorem getAddress_ok (a : List Nat) (h : a.length = 20) :
    getAddress (some a) = .ok a := by
  simp [getAddress, h]

theorem getAddress_ok_inv {o : Option (List Nat)} {bs : List Nat}
    (h : getAddress o = .ok bs) : o = some bs ∧ bs.length = 20 := by
  match o with
  | none => simp [getAddress] at h
  | some a =>
    by_cases h20 : a.length = 20
    · simp [getAddress, h20] at h
      subst h
      exact ⟨rfl, h20⟩
    · simp [getAddress, h20] at h

theorem getAddress_error {o : Option (List Nat)} {e : Err}
    (h : getAddress o = .error e) : e.msg = "invalid address" := by
  match o with
  | none =>
    simp [getAddress] at h
    simp [← h, Err.msg]
  | some a =>
    by_cases h20 : a.length = 20
    · simp [getAddress, h20] at h
    · simp [getAddress, h20] at h
      simp [← h, Err.msg]

theorem getAddress_invalidArg {o : Option (List Nat)} {e : Err}
    (h : getAddress o = .error e) : Err.isInvalidArg e := by
  match o with
  | none =>
    simp [getAddress] at h
    exact ⟨_, _, _, h.symm⟩
  | some a =>
    by_cases h20 : a.length = 20
    · simp [getAddress, h20] at h
    · simp [getAddress, h20] at h
      exact ⟨_, _, _, h.symm⟩

theorem formatNumber_ok (n : Nat) (name : String) (h : n < 2 ^ 256) :
    formatNumber n name = .ok (beBytes n) := by
  have hle : (beBytes n).length ≤ 32 :=
    beBytes_length_le 32 n (lt_of_lt_of_le h (by norm_num))
  unfold formatNumber
  rw [if_pos hle]

theorem formatNumber_ok_inv {n : Nat} {name : String} {bs : List Nat}
    (h : formatNumber n name = .ok bs) : bs = beBytes n := by
  unfold formatNumber at h
  split at h
  · injection h with h2
    exact h2.symm
  · simp at h

theorem formatNumber_error {n : Nat} {name : String} {e : Err}
    (h : formatNumber n name = .error e) : e.msg = "value too large" ∧ Err.isInvalidArg e := by
  unfold formatNumber at h
  split at h
  · simp at h
  · injection h with h2
    subst h2
    exact ⟨rfl, ⟨_, _, _, rfl⟩⟩

theorem handleUint_bytes_eq (bs : List Nat) (p : String) :
    handleUint (.bytes bs) p
      = (if fromBe bs < 2 ^ 256 then (.ok (fromBe bs) : Except Err Nat)
         else .error (.invalidArgument p "value exceeds uint size" "")) := rfl

theorem handleUint_beBytes (n : Nat) (p : String) (h : n < 2 ^ 256) :
    handleUint (.bytes (beBytes n)) p = .ok n := by
  rw [handleUint_bytes_eq, fromBe_beBytes, if_pos h]

theorem handleUint_error {it : Rlp.Item} {p : String} {e : Err}
    (h : handleUint it p = .error e) :
    (e.msg = "value exceeds uint size" ∨ e.msg = "invalid uint") ∧ Err.isInvalidArg e := by
  match it with
  | .bytes bs =>
    rw [handleUint_bytes_eq] at h
    split at h
    · simp at h
    · injection h with h2
      subst h2
      exact ⟨Or.inl rfl, ⟨_, _, _, rfl⟩⟩
  | .list l =>
    have hform : handleUint (.list l) p
        = .error (.invalidArgument p "invalid uint" "") := rfl
    rw [hform] at h
    injection h with h2
    subst h2
    exact ⟨Or.inr rfl, ⟨_, _, _, rfl⟩⟩

theorem handleNumber_bytes_eq (bs : List Nat) (p : String) :
    handleNumber (.bytes bs) p
      = (if fromBe bs < 2 ^ 53 then (.ok (fromBe bs) : Except Err Nat)
         else .error (.invalidArgument p "value exceeds safe integer range" "")) := rfl

theorem handleNumber_beBytes (n : Nat) (p : String) (h : n < 2 ^ 53) :
    handleNumber (.bytes (beBytes n)) p = .ok n := by
  rw [handleNumber_bytes_eq, fromBe_beBytes, if_pos h]

theorem handleNumber_error {it : Rlp.Item} {p : String} {e : Err}
    (h : handleNumber it p = .error e) :
    (e.msg = "value exceeds safe integer range" ∨ e.msg = "invalid number")
      ∧ Err.isInvalidArg e := by
  match it with
  | .bytes bs =>
    rw [handleNumber_bytes_eq] at h
    split at h
    · simp at h
    · injection h with h2
      subst h2
      exact ⟨Or.inl rfl, ⟨_, _, _, rfl⟩⟩
  | .list l =>
    have hform : handleNumber (.list l) p
        = .error (.invalidArgument p "invalid number" "") := rfl
    rw [hform] at h
    injection h with h2
    subst h2
    exact ⟨Or.inr rfl, ⟨_, _, _, rfl⟩⟩

theorem handleAddress_nil : handleAddress (.bytes []) = .ok none := rfl

theorem handleAddress_addr (a : List Nat) (h : a.length = 20) :
    handleAddress (.bytes a) = .ok (some a) := by
  match a, h with
  | x :: xs, h =>
    show (getAddress (some (x :: xs))).map some = .ok (some (x :: xs))
    rw [getAddress_ok (x :: xs) h, map_ok]

theorem handleAddress_error {it : Rlp.Item} {e : Err}
    (h : handleAddress it = .error e) : e.msg = "invalid address" ∧ Err.isInvalidArg e := by
  match it with
  | .bytes [] => simp [handleAddress] at h
  | .bytes (x :: xs) =>
    have hform : handleAddress (.bytes (x :: xs))
        = (getAddress (some (x :: xs))).map some := rfl
    rw [hform] at h
    rcases hga : getAddress (some (x :: xs)) with e2 | a2
    · rw [hga, map_error] at h
      injection h with h2
      subst h2
      exact ⟨getAddress_error hga, getAddress_invalidArg hga⟩
    · rw [hga, map_ok] at h
      simp at h
  | .list l =>
    unfold handleAddress at h
    injection h with h2
    subst h2
    exact ⟨rfl, ⟨_, _, _, rfl⟩⟩

theorem hexBytes_bytes (bs : List Nat) : hexBytes (.bytes bs) = .ok bs := rfl

theorem hexBytes_error {it : Rlp.Item} {e : Err} (h : hexBytes it = .error e) :
    e.msg = "invalid BytesLike value" ∧ Err.isInvalidArg e := by
  match it with
  | .bytes bs => simp [hexBytes] at h
  | .list l =>
    unfold hexBytes at h
    injection h with h2
    subst h2
    exact ⟨rfl, ⟨_, _, _, rfl⟩⟩

/-! ## Access-list formatting and decoding -/

theorem fmtKeys_ok (ks : List (List Nat)) (h : ∀ k ∈ ks, k.length = 32) :
    fmtKeys ks = .ok ks := by
  induction ks with
  | nil => rfl
  | cons k ks ih =>
    have hk := h k (List.mem_cons_self k ks)
    have ih2 := ih (fun j hj => h j (List.mem_cons_of_mem k hj))
    have hform : fmtKeys (k :: ks)
        = (if k.length = 32 then (fmtKeys ks).map (k :: ·)
           else .error (.invalidArgument "storageKey" "invalid slot" "")) := rfl
    rw [hform, if_pos hk, ih2, map_ok]

theorem fmtKeys_error {ks : List (List Nat)} {e : Err} (h : fmtKeys ks = .error e) :
    e.msg = "invalid slot" ∧ Err.isInvalidArg e := by
  induction ks with
  | nil => simp [fmtKeys] at h
  | cons k ks ih =>
    have hform : fmtKeys (k :: ks)
        = (if k.length = 32 then (fmtKeys ks).map (k :: ·)
           else .error (.invalidArgument "storageKey" "invalid slot" "")) := rfl
    rw [hform] at h
    split at h
    · rcases hks : fmtKeys ks with e2 | v
      · rw [hks, map_error] at h
        injection h with h2
        subst h2
        exact ih hks
      · rw [hks, map_ok] at h
        simp at h
    · injection h with h2
      subst h2
      exact ⟨rfl, ⟨_, _, _, rfl⟩⟩

theorem fmtPairs_ok (al : AccessList)
    (h : ∀ p ∈ al, p.1.length = 20 ∧ ∀ k ∈ p.2, k.length = 32) :
    fmtPairs al = .ok (al.map alPairItem) := by
  induction al with
  | nil => rfl
  | cons p rest ih =>
    obtain ⟨a, ks⟩ := p
    have h1 := (h (a, ks) (List.mem_cons_self _ _)).1
    have h2 := (h (a, ks) (List.mem_cons_self _ _)).2
    have ih2 := ih (fun q hq => h q (List.mem_cons_of_mem _ hq))
    show (getAddress (some a) >>= fun a2 => fmtKeys ks >>= fun ks2 =>
        fmtPairs rest >>= fun tail =>
          .ok (Rlp.Item.list [.bytes a2, .list (ks2.map Rlp.Item.bytes)] :: tail)) = _
    simp only [getAddress_ok a h1, fmtKeys_ok ks h2, ih2, ok_bind]
    rfl

theorem fmtPairs_error {al : AccessList} {e : Err} (h : fmtPairs al = .error e) :
    (e.msg = "invalid address" ∨ e.msg = "invalid slot") ∧ Err.isInvalidArg e := by
  induction al with
  | nil => simp [fmtPairs] at h
  | cons p rest ih =>
    obtain ⟨a, ks⟩ := p
    have hform : fmtPairs ((a, ks) :: rest)
        = (getAddress (some a) >>= fun a2 => fmtKeys ks >>= fun ks2 =>
            fmtPairs rest >>= fun tail =>
              .ok (Rlp.Item.list [.bytes a2, .list (ks2.map Rlp.Item.bytes)] :: tail)) := rfl
    rw [hform] at h
    rcases bind_error_inv h with hga | ⟨a2, hga, h⟩
    · exact ⟨Or.inl (getAddress_error hga), getAddress_invalidArg hga⟩
    · try simp only [] at h
      rcases bind_error_inv h with hks | ⟨ks2, hks, h⟩
      · have := fmtKeys_error hks
        exact ⟨Or.inr this.1, this.2⟩
      · try simp only [] at h
        rcases bind_error_inv h with hrest | ⟨tail, hrest, h⟩
        · exact ih hrest
        · exact absurd h (by simp)

theorem formatAccessList_ok (al : AccessList)
    (h : ∀ p ∈ al, p.1.length = 20 ∧ ∀ k ∈ p.2, k.length = 32) :
    formatAccessList al = .ok (.list (al.map alPairItem)) := by
  unfold formatAccessList
  rw [fmtPairs_ok al h, map_ok]

theorem formatAccessList_ok_inv {al : AccessList} {it : Rlp.Item}
    (h : formatAccessList al = .ok it) : ∃ ps, it = .list ps ∧ fmtPairs al = .ok ps := by
  unfold formatAccessList at h
  rcases hfp : fmtPairs al with e2 | ps
  · rw [hfp, map_error] at h
    simp at h
  · rw [hfp, map_ok] at h
    injection h with h2
    exact ⟨ps, h2.symm, rfl⟩

theorem formatAccessList_error {al : AccessList} {e : Err}
    (h : formatAccessList al = .error e) :
    (e.msg = "invalid address" ∨ e.msg = "invalid slot") ∧ Err.isInvalidArg e := by
  unfold formatAccessList at h
  rcases hfp : fmtPairs al with e2 | ps
  · rw [hfp, map_error] at h
    injection h with h2
    subst h2
    exact fmtPairs_error hfp
  · rw [hfp, map_ok] at h
    simp at h

theorem parseKeys_ok (ks : List (List Nat)) (h : ∀ k ∈ ks, k.length = 32) :
    parseKeys (ks.map Rlp.Item.bytes) = .ok ks := by
  induction ks with
  | nil => rfl
  | cons k ks ih =>
    have hk := h k (List.mem_cons_self k ks)
    have ih2 := ih (fun j hj => h j (List.mem_cons_of_mem k hj))
    have hform : parseKeys ((k :: ks).map Rlp.Item.bytes)
        = (if k.length = 32 then (parseKeys (ks.map Rlp.Item.bytes)).map (k :: ·)
           else .error (.invalidArgument "accessList" "invalid slot" "")) := rfl
    rw [hform, if_pos hk, ih2, map_ok]

theorem parseKeys_error {its : List Rlp.Item} {e : Err} (h : parseKeys its = .error e) :
    e.msg = "invalid slot" ∧ Err.isInvalidArg e := by
  induction its with
  | nil => simp [parseKeys] at h
  | cons it its ih =>
    match it with
    | .bytes k =>
      have hform : parseKeys (Rlp.Item.bytes k :: its)
          = (if k.length = 32 then (parseKeys its).map (k :: ·)
             else .error (.invalidArgument "accessList" "invalid slot" "")) := rfl
      rw [hform] at h
      split at h
      · rcases hks : parseKeys its with e2 | v
        · rw [hks, map_error] at h
          injection h with h2
          subst h2
          exact ih hks
        · rw [hks, map_ok] at h
          simp at h
      · injection h with h2
        subst h2
        exact ⟨rfl, ⟨_, _, _, rfl⟩⟩
    | .list l =>
      have hform : parseKeys (Rlp.Item.list l :: its)
          = .error (.invalidArgument "accessList" "invalid slot" "") := rfl
      rw [hform] at h
      injection h with h2
      subst h2
      exact ⟨rfl, ⟨_, _, _, rfl⟩⟩

theorem parsePairs_fmt (al : AccessList)
    (h : ∀ p ∈ al, p.1.length = 20 ∧ ∀ k ∈ p.2, k.length = 32) :
    parsePairs (al.map alPairItem) = .ok al := by
  induction al with
  | nil => rfl
  | cons p rest ih =>
    obtain ⟨a, ks⟩ := p
    have h1 := (h (a, ks) (List.mem_cons_self _ _)).1
    have h2 := (h (a, ks) (List.mem_cons_self _ _)).2
    have ih2 := ih (fun q hq => h q (List.mem_cons_of_mem _ hq))
    show (getAddress (some a) >>= fun a2 => parseKeys (ks.map Rlp.Item.bytes) >>= fun ks2 =>
        parsePairs (rest.map alPairItem) >>= fun tail => .ok ((a2, ks2) :: tail)) = _
    simp only [getAddress_ok a h1, parseKeys_ok ks h2, ih2, ok_bind]

theorem handleAccessList_fmt (al : AccessList) (p : String)
    (h : ∀ q ∈ al, q.1.length = 20 ∧ ∀ k ∈ q.2, k.length = 32) :
    handleAccessList (.list (al.map alPairItem)) p = .ok al :=
  parsePairs_fmt al h

theorem parsePairs_error {its : List Rlp.Item} {e : Err} (h : parsePairs its = .error e) :
    (e.msg = "invalid address" ∨ e.msg = "invalid slot" ∨ e.msg = "invalid slot set")
      ∧ Err.isInvalidArg e := by
  induction its with
  | nil => simp [parsePairs] at h
  | cons it its ih =>
    match it with
    | .bytes bs =>
      have hform : parsePairs (Rlp.Item.bytes bs :: its)
          = .error (.invalidArgument "accessList" "invalid slot set" "") := rfl
      rw [hform] at h
      injection h with h2
      subst h2
      exact ⟨Or.inr (Or.inr rfl), ⟨_, _, _, rfl⟩⟩
    | .list [] =>
      have hform : parsePairs (Rlp.Item.list [] :: its)
          = .error (.invalidArgument "accessList" "invalid slot set" "") := rfl
      rw [hform] at h
      injection h with h2
      subst h2
      exact ⟨Or.inr (Or.inr rfl), ⟨_, _, _, rfl⟩⟩
    | .list [x] =>
      have hform : parsePairs (Rlp.Item.list [x] :: its)
          = .error (.invalidArgument "accessList" "invalid slot set" "") := rfl
      rw [hform] at h
      injection h with h2
      subst h2
      exact ⟨Or.inr (Or.inr rfl), ⟨_, _, _, rfl⟩⟩
    | .list (x :: y :: z :: zs) =>
      have hform : parsePairs (Rlp.Item.list (x :: y :: z :: zs) :: its)
          = .error (.invalidArgument "accessList" "invalid slot set" "") := rfl
      rw [hform] at h
      injection h with h2
      subst h2
      exact ⟨Or.inr (Or.inr rfl), ⟨_, _, _, rfl⟩⟩
    | .list [.list l, y] =>
      have hform : parsePairs (Rlp.Item.list [.list l, y] :: its)
          = .error (.invalidArgument "accessList" "invalid address" "") := rfl
      rw [hform] at h
      injection h with h2
      subst h2
      exact ⟨Or.inl rfl, ⟨_, _, _, rfl⟩⟩
    | .list [.bytes a, .bytes b2] =>
      have hform : parsePairs (Rlp.Item.list [.bytes a, .bytes b2] :: its)
          = .error (.invalidArgument "accessList" "invalid slot" "") := rfl
      rw [hform] at h
      injection h with h2
      subst h2
      exact ⟨Or.inr (Or.inl rfl), ⟨_, _, _, rfl⟩⟩
    | .list [.bytes a, .list ks] =>
      have hform : parsePairs (Rlp.Item.list [.bytes a, .list ks] :: its)
          = (getAddress (some a) >>= fun a2 => parseKeys ks >>= fun ks2 =>
              parsePairs its >>= fun tail => .ok ((a2, ks2) :: tail)) := rfl
      rw [hform] at h
      rcases bind_error_inv h with hga | ⟨a2, hga, h⟩
      · exact ⟨Or.inl (getAddress_error hga), getAddress_invalidArg hga⟩
      · try simp only [] at h
        rcases bind_error_inv h with hks | ⟨ks2, hks, h⟩
        · have := parseKeys_error hks
          exact ⟨Or.inr (Or.inl this.1), this.2⟩
        · try simp only [] at h
          rcases bind_error_inv h with hrest | ⟨tail, hrest, h⟩
          · exact ih hrest
          · exact absurd h (by simp)

theorem handleAccessList_error {it : Rlp.Item} {p : String} {e : Err}
    (h : handleAccessList it p = .error e) :
    (e.msg = "invalid address" ∨ e.msg = "invalid slot" ∨ e.msg = "invalid slot set"
      ∨ e.msg = "invalid access list") ∧ Err.isInvalidArg e := by
  match it with
  | .list pairs =>
    have hform : handleAccessList (.list pairs) p = parsePairs pairs := rfl
    rw [hform] at h
    have := parsePairs_error h
    exact ⟨by tauto, this.2⟩
  | .bytes bs =>
    have hform : handleAccessList (.bytes bs) p
        = .error (.invalidArgument p "invalid access list" "") := rfl
    rw [hform] at h
    injection h with h2
    subst h2
    exact ⟨Or.inr (Or.inr (Or.inr rfl)), ⟨_, _, _, rfl⟩⟩

theorem parseEipSignature_error {fields : List Rlp.Item} {e : Err}
    (h : parseEipSignature fields = .error e) :
    (e.msg = "invalid yParity" ∨ e.msg = "value out of range" ∨ e.msg = "invalid signature")
      ∧ Err.isInvalidArg e := by
  have base : ∀ n m v : String,
      (.error (.invalidArgument n m v) : Except Err Sig) = .error e →
      (m = "invalid yParity" ∨ m = "value out of range" ∨ m = "invalid signature") →
      (e.msg = "invalid yParity" ∨ e.msg = "value out of range"
        ∨ e.msg = "invalid signature") ∧ Err.isInvalidArg e := by
    intro n m v he hm
    injection he with h2
    subst h2
    exact ⟨hm, ⟨n, m, v, rfl⟩⟩
  match fields with
  | [.bytes yb, .bytes rb, .bytes sb] =>
    have hform : parseEipSignature [.bytes yb, .bytes rb, .bytes sb]
        = (if fromBe yb = 0 ∨ fromBe yb = 1 then
            (if rb.length ≤ 32 then
              (if sb.length ≤ 32 then
                (.ok { yParity := fromBe yb, r := fromBe rb, s := fromBe sb } : Except Err Sig)
               else .error (.invalidArgument "signature.s" "value out of range" ""))
             else .error (.invalidArgument "signature.r" "value out of range" ""))
           else .error (.invalidArgument "yParity" "invalid yParity" "")) := rfl
    rw [hform] at h
    split at h
    · split at h
      · split at h
        · simp at h
        · exact base _ _ _ h (Or.inr (Or.inl rfl))
      · exact base _ _ _ h (Or.inr (Or.inl rfl))
    · exact base _ _ _ h (Or.inl rfl)
  | [.bytes yb, .bytes rb, .list l] =>
    have hform : parseEipSignature [.bytes yb, .bytes rb, .list l]
        = (if fromBe yb = 0 ∨ fromBe yb = 1 then
            .error (.invalidArgument "signature" "invalid signature" "")
           else .error (.invalidArgument "yParity" "invalid yParity" "")) := rfl
    rw [hform] at h
    split at h
    · exact base _ _ _ h (Or.inr (Or.inr rfl))
    · exact base _ _ _ h (Or.inl rfl)
  | [.bytes yb, .list l, x] =>
    have hform : parseEipSignature [.bytes yb, .list l, x]
        = (if fromBe yb = 0 ∨ fromBe yb = 1 then
            .error (.invalidArgument "signature" "invalid signature" "")
           else .error (.invalidArgument "yParity" "invalid yParity" "")) := by
      match x with
      | .bytes _ => rfl
      | .list _ => rfl
    rw [hform] at h
    split at h
    · exact base _ _ _ h (Or.inr (Or.inr rfl))
    · exact base _ _ _ h (Or.inl rfl)
  | [.list l, x, y] =>
    exact base _ _ _ h (Or.inl rfl)
  | [] => exact base _ _ _ h (Or.inr (Or.inr rfl))
  | [x] => exact base _ _ _ h (Or.inr (Or.inr rfl))
  | [x, y] => exact base _ _ _ h (Or.inr (Or.inr rfl))
  | x :: y :: z :: w :: t => exact base _ _ _ h (Or.inr (Or.inr rfl))

/-! ## Well-formedness of the serializer's field items -/

theorem good_alPairItem_keys (p : List Nat × List (List Nat)) (h20 : p.1.length = 20)
    (hk : ∀ k ∈ p.2, k.length = 32) : Rlp.Good (alPairItem p) := by
  apply Rlp.Good.list
  intro i hi
  simp only [alPairItem, List.mem_cons, List.not_mem_nil, or_false] at hi
  rcases hi with rfl | rfl
  · exact Rlp.Good.bytes _ (by simp [h20])
  · apply Rlp.Good.list
    intro j hj
    simp only [List.mem_map] at hj
    obtain ⟨k, hkm, rfl⟩ := hj
    exact Rlp.Good.bytes _ (by simp [hk k hkm])

theorem depth_alPairItem (p : List Nat × List (List Nat)) : Rlp.DepthLe 3 (alPairItem p) := by
  apply Rlp.DepthLe.list
  intro i hi
  simp only [alPairItem, List.mem_cons, List.not_mem_nil, or_false] at hi
  rcases hi with rfl | rfl
  · exact Rlp.DepthLe.bytes 1 _
  · apply Rlp.DepthLe.list
    intro j hj
    simp only [List.mem_map] at hj
    obtain ⟨k, _, rfl⟩ := hj
    exact Rlp.DepthLe.bytes 0 _

theorem good_alItem (al : AccessList) (h : ∀ p ∈ al, p.1.length = 20 ∧ ∀ k ∈ p.2, k.length = 32) :
    Rlp.Good (.list (al.map alPairItem)) := by
  apply Rlp.Good.list
  intro i hi
  simp only [List.mem_map] at hi
  obtain ⟨p, hp, rfl⟩ := hi
  exact good_alPairItem_keys p (h p hp).1 (h p hp).2

theorem depth_alItem (al : AccessList) : Rlp.DepthLe 4 (.list (al.map alPairItem)) := by
  apply Rlp.DepthLe.list
  intro i hi
  simp only [List.mem_map] at hi
  obtain ⟨p, _, rfl⟩ := hi
  exact depth_alPairItem p

end Ethers

namespace Celo

open Ethers

/-! ## Equation lemmas exposing the monadic structure -/

theorem mkFields_eq (tx : Cip64Fields) :
    mkFields tx =
      (formatNumber (tx.chainId.getD 0) "chainId" >>= fun f0 =>
       formatNumber (tx.nonce.getD 0) "nonce" >>= fun f1 =>
       formatNumber (tx.maxPriorityFeePerGas.getD 0) "maxPriorityFeePerGas" >>= fun f2 =>
       formatNumber (tx.maxFeePerGas.getD 0) "maxFeePerGas" >>= fun f3 =>
       formatNumber (tx.gasLimit.getD 0) "gasLimit" >>= fun f4 =>
       (match tx.«to» with
        | some a => getAddress (some a)
        | none => .ok []) >>= fun f5 =>
       formatNumber (tx.value.getD 0) "value" >>= fun f6 =>
       formatAccessList (tx.accessList.getD []) >>= fun f8 =>
       getAddress tx.feeCurrency >>= fun f9 =>
       .ok [.bytes f0, .bytes f1, .bytes f2, .bytes f3, .bytes f4, .bytes f5, .bytes f6,
            .bytes (tx.data.getD []), f8, .bytes f9]) := rfl

theorem serialize_eq (tx : Cip64Fields) (signature : Option Sig) :
    serialize tx signature =
      (mkFields tx >>= fun base =>
       (match signature with
        | none => .ok base
        | some sig =>
          formatNumber sig.yParity "yParity" >>= fun y =>
            .ok (base ++ [.bytes y, .bytes (beBytes sig.r), .bytes (beBytes sig.s)])) >>=
        fun fields =>
       .ok (CIP_64_TYPE_NUMBER :: Rlp.rlpEncodeTx (.list fields))) := rfl

theorem parseBody_eq (keccak : List Nat → List Nat) (data : List Nat) (fs : List Rlp.Item) :
    parseBody keccak data fs =
      (handleUint (fs.getD 2 (.bytes [])) "maxPriorityFeePerGas" >>= fun mp =>
       handleUint (fs.getD 3 (.bytes [])) "maxFeePerGas" >>= fun mf =>
       handleUint (fs.getD 0 (.bytes [])) "chainId" >>= fun cid =>
       handleNumber (fs.getD 1 (.bytes [])) "nonce" >>= fun nn =>
       handleUint (fs.getD 4 (.bytes [])) "gasLimit" >>= fun gl =>
       handleAddress (fs.getD 5 (.bytes [])) >>= fun toA =>
       handleUint (fs.getD 6 (.bytes [])) "value" >>= fun v =>
       hexBytes (fs.getD 7 (.bytes [])) >>= fun d =>
       handleAccessList (fs.getD 8 (.bytes [])) "accessList" >>= fun al =>
       handleAddress (fs.getD 9 (.bytes [])) >>= fun fc =>
       (if fs.length = 10 then
          .ok { type := CIP_64_TYPE_NUMBER, chainId := cid, nonce := nn,
                maxPriorityFeePerGas := mp, maxFeePerGas := mf, gasPrice := none,
                gasLimit := gl, «to» := toA, value := v, data := d, accessList := al,
                feeCurrency := fc, hash := none, signature := none }
        else
          parseEipSignature (fs.drop 10) >>= fun sig =>
          .ok { type := CIP_64_TYPE_NUMBER, chainId := cid, nonce := nn,
                maxPriorityFeePerGas := mp, maxFeePerGas := mf, gasPrice := none,
                gasLimit := gl, «to» := toA, value := v, data := d, accessList := al,
                feeCurrency := fc, hash := some (keccak data),
                signature := some sig })) := rfl

theorem parseCip64_eq (keccak : List Nat → List Nat) (data : List Nat) :
    parseCip64 keccak data =
      (Rlp.decodeRlp (data.drop 1) >>= fun decoded =>
       match decoded with
       | .list fs =>
         if fs.length = 10 ∨ fs.length = 13 then parseBody keccak data fs
         else .error (.invalidArgument "data" fcMsg (hexlify data))
       | .bytes _ => .error (.invalidArgument "data" fcMsg (hexlify data))) := rfl

/-! ## Characterizations of the field-array builder -/

theorem mkFields_ok_inv {tx : Cip64Fields} {fs : List Rlp.Item} (h : mkFields tx = .ok fs) :
    ∃ fcB alItem, tx.feeCurrency = some fcB ∧ fcB.length = 20
      ∧ formatAccessList (tx.accessList.getD []) = .ok alItem
      ∧ fs = [.bytes (beBytes (tx.chainId.getD 0)), .bytes (beBytes (tx.nonce.getD 0)),
              .bytes (beBytes (tx.maxPriorityFeePerGas.getD 0)),
              .bytes (beBytes (tx.maxFeePerGas.getD 0)),
              .bytes (beBytes (tx.gasLimit.getD 0)), .bytes (tx.«to».getD []),
              .bytes (beBytes (tx.value.getD 0)), .bytes (tx.data.getD []), alItem,
              .bytes fcB] := by
  rw [mkFields_eq] at h
  obtain ⟨f0, h0, h⟩ := bind_ok_inv h
  obtain ⟨f1, h1, h⟩ := bind_ok_inv h
  obtain ⟨f2, h2, h⟩ := bind_ok_inv h
  obtain ⟨f3, h3, h⟩ := bind_ok_inv h
  obtain ⟨f4, h4, h⟩ := bind_ok_inv h
  obtain ⟨f5, h5, h⟩ := bind_ok_inv h
  obtain ⟨f6, h6, h⟩ := bind_ok_inv h
  obtain ⟨f8, h8, h⟩ := bind_ok_inv h
  obtain ⟨f9, h9, h⟩ := bind_ok_inv h
  injection h with hfs
  obtain ⟨hfc9, hlen9⟩ := getAddress_ok_inv h9
  have hto : f5 = tx.«to».getD [] := by
    rcases hx : tx.«to» with _ | a
    · rw [hx] at h5
      injection h5 with h5a
      exact h5a.symm
    · rw [hx] at h5
      have := getAddress_ok_inv h5
      injection this.1 with h5a
      exact h5a.symm
  refine ⟨f9, f8, hfc9, hlen9, h8, ?_⟩
  rw [← hfs, formatNumber_ok_inv h0, formatNumber_ok_inv h1, formatNumber_ok_inv h2,
    formatNumber_ok_inv h3, formatNumber_ok_inv h4, formatNumber_ok_inv h6, hto]

theorem mkFields_error {tx : Cip64Fields} {e : Err} (h : mkFields tx = .error e) :
    Err.isInvalidArg e := by
  rw [mkFields_eq] at h
  rcases bind_error_inv h with h0 | ⟨f0, h0, h⟩
  · exact (formatNumber_error h0).2
  rcases bind_error_inv h with h1 | ⟨f1, h1, h⟩
  · exact (formatNumber_error h1).2
  rcases bind_error_inv h with h2 | ⟨f2, h2, h⟩
  · exact (formatNumber_error h2).2
  rcases bind_error_inv h with h3 | ⟨f3, h3, h⟩
  · exact (formatNumber_error h3).2
  rcases bind_error_inv h with h4 | ⟨f4, h4, h⟩
  · exact (formatNumber_error h4).2
  rcases bind_error_inv h with h5 | ⟨f5, h5, h⟩
  · rcases hx : tx.«to» with _ | a
    · rw [hx] at h5
      exact absurd h5 (by simp)
    · rw [hx] at h5
      exact getAddress_invalidArg h5
  rcases bind_error_inv h with h6 | ⟨f6, h6, h⟩
  · exact (formatNumber_error h6).2
  rcases bind_error_inv h with h8 | ⟨f8, h8, h⟩
  · exact (formatAccessList_error h8).2
  rcases bind_error_inv h with h9 | ⟨f9, h9, h⟩
  · exact getAddress_invalidArg h9
  exact absurd h (by simp)

theorem mkFields_valid (c n mp mf gl v : Nat) (toF : Option (List Nat)) (d : List Nat)
    (al : AccessList) (fc : List Nat) (gp : Option Nat) (sigF : Option Sig)
    (hc : c < 2 ^ 256) (hn : n < 2 ^ 256) (hmp : mp < 2 ^ 256) (hmf : mf < 2 ^ 256)
    (hgl : gl < 2 ^ 256) (hv : v < 2 ^ 256)
    (hto : ∀ a, toF = some a → a.length = 20)
    (hal : ∀ p ∈ al, p.1.length = 20 ∧ ∀ k ∈ p.2, k.length = 32)
    (hfc : fc.length = 20) :
    mkFields { chainId := some c, nonce := some n, maxPriorityFeePerGas := some mp,
               maxFeePerGas := some mf, gasPrice := gp, gasLimit := some gl, «to» := toF,
               value := some v, data := some d, accessList := some al,
               feeCurrency := some fc, signature := sigF }
      = .ok [.bytes (beBytes c), .bytes (beBytes n), .bytes (beBytes mp),
             .bytes (beBytes mf), .bytes (beBytes gl), .bytes (toF.getD []),
             .bytes (beBytes v), .bytes d, .list (al.map alPairItem), .bytes fc] := by
  have hto2 : (match toF with
      | some a => getAddress (some a)
      | none => (.ok [] : Except Err (List Nat))) = .ok (toF.getD []) := by
    rcases toF with _ | a
    · rfl
    · exact getAddress_ok a (hto a rfl)
  have hform : mkFields { chainId := some c, nonce := some n,
                          maxPriorityFeePerGas := some mp,
                          maxFeePerGas := some mf, gasPrice := gp, gasLimit := some gl,
                          «to» := toF, value := some v, data := some d,
                          accessList := some al, feeCurrency := some fc,
                          signature := sigF }
      = (formatNumber c "chainId" >>= fun f0 =>
         formatNumber n "nonce" >>= fun f1 =>
         formatNumber mp "maxPriorityFeePerGas" >>= fun f2 =>
         formatNumber mf "maxFeePerGas" >>= fun f3 =>
         formatNumber gl "gasLimit" >>= fun f4 =>
         (match toF with
          | some a => getAddress (some a)
          | none => .ok []) >>= fun f5 =>
         formatNumber v "value" >>= fun f6 =>
         formatAccessList al >>= fun f8 =>
         getAddress (some fc) >>= fun f9 =>
         .ok [.bytes f0, .bytes f1, .bytes f2, .bytes f3, .bytes f4, .bytes f5, .bytes f6,
              .bytes d, f8, .bytes f9]) := rfl
  rw [hform]
  simp only [formatNumber_ok c "chainId" hc, formatNumber_ok n "nonce" hn,
    formatNumber_ok mp "maxPriorityFeePerGas" hmp, formatNumber_ok mf "maxFeePerGas" hmf,
    formatNumber_ok gl "gasLimit" hgl, formatNumber_ok v "value" hv, hto2,
    formatAccessList_ok al hal, getAddress_ok fc hfc, ok_bind]

/-! ## Characterizations of the serializer -/

theorem serialize_none_ok {tx : Cip64Fields} {fs : List Rlp.Item} (hb : mkFields tx = .ok fs) :
    serialize tx none = .ok (CIP_64_TYPE_NUMBER :: Rlp.rlpEncodeTx (.list fs)) := by
  rw [serialize_eq]
  simp only [hb, ok_bind]

theorem serialize_some_ok {tx : Cip64Fields} {sig : Sig} {fs : List Rlp.Item} {y : List Nat}
    (hb : mkFields tx = .ok fs) (hy : formatNumber sig.yParity "yParity" = .ok y) :
    serialize tx (some sig)
      = .ok (CIP_64_TYPE_NUMBER :: Rlp.rlpEncodeTx
          (.list (fs ++ [.bytes y, .bytes (beBytes sig.r), .bytes (beBytes sig.s)]))) := by
  rw [serialize_eq]
  simp only [hb, hy, ok_bind]

theorem serialize_none_ok_inv {tx : Cip64Fields} {out : List Nat}
    (h : serialize tx none = .ok out) :
    ∃ fs, mkFields tx = .ok fs ∧ out = CIP_64_TYPE_NUMBER :: Rlp.rlpEncodeTx (.list fs) := by
  rw [serialize_eq] at h
  obtain ⟨base, hb, h⟩ := bind_ok_inv h
  obtain ⟨fields, hf, h⟩ := bind_ok_inv h
  have hf2 : (.ok base : Except Err (List Rlp.Item)) = .ok fields := hf
  injection hf2 with hf3
  injection h with h2
  exact ⟨base, hb, by rw [← h2, ← hf3]⟩

theorem serialize_some_ok_inv {tx : Cip64Fields} {sig : Sig} {out : List Nat}
    (h : serialize tx (some sig) = .ok out) :
    ∃ fs y, mkFields tx = .ok fs ∧ formatNumber sig.yParity "yParity" = .ok y
      ∧ out = CIP_64_TYPE_NUMBER :: Rlp.rlpEncodeTx
          (.list (fs ++ [.bytes y, .bytes (beBytes sig.r), .bytes (beBytes sig.s)])) := by
  rw [serialize_eq] at h
  obtain ⟨base, hb, h⟩ := bind_ok_inv h
  obtain ⟨fields, hf, h⟩ := bind_ok_inv h
  have hf2 : (formatNumber sig.yParity "yParity" >>= fun y =>
      (.ok (base ++ [.bytes y, .bytes (beBytes sig.r), .bytes (beBytes sig.s)])
        : Except Err (List Rlp.Item))) = .ok fields := hf
  obtain ⟨y, hy, hf3⟩ := bind_ok_inv hf2
  injection hf3 with hf4
  injection h with h2
  exact ⟨base, y, hb, hy, by rw [← h2, ← hf4]⟩

theorem serialize_error {tx : Cip64Fields} {sigO : Option Sig} {e : Err}
    (h : serialize tx sigO = .error e) : Err.isInvalidArg e := by
  rw [serialize_eq] at h
  rcases bind_error_inv h with hb | ⟨base, hb, h⟩
  · exact mkFields_error hb
  rcases bind_error_inv h with hf | ⟨fields, hf, h⟩
  · rcases sigO with _ | sig
    · exact absurd hf (by simp)
    · have hf2 : (formatNumber sig.yParity "yParity" >>= fun y =>
          (.ok (base ++ [.bytes y, .bytes (beBytes sig.r), .bytes (beBytes sig.s)])
            : Except Err (List Rlp.Item))) = .error e := hf
      rcases bind_error_inv hf2 with hy | ⟨y, hy, hf3⟩
      · exact (formatNumber_error hy).2
      · exact absurd hf3 (by simp)
  · exact absurd h (by simp)

theorem serialized_none (tx : Cip64Fields) (h : tx.signature = none) :
    serialized tx = .error (.unsupportedOperation
      "cannot serialize unsigned transaction; maybe you meant .unsignedSerialized"
      ".serialized") := by
  unfold serialized
  rw [h]

theorem serialized_some (tx : Cip64Fields) (sig : Sig) (h : tx.signature = some sig) :
    serialized tx = serialize tx (some sig) := by
  unfold serialized
  rw [h]

/-! ## Characterizations of the decoder body -/

theorem parseBody_valid (keccak : List Nat → List Nat) (data : List Nat)
    (c n mp mf gl v : Nat) (toF : Option (List Nat)) (d : List Nat) (al : AccessList)
    (fc : List Nat)
    (hc : c < 2 ^ 256) (hn : n < 2 ^ 53) (hmp : mp < 2 ^ 256) (hmf : mf < 2 ^ 256)
    (hgl : gl < 2 ^ 256) (hv : v < 2 ^ 256)
    (hto : ∀ a, toF = some a → a.length = 20)
    (hal : ∀ p ∈ al, p.1.length = 20 ∧ ∀ k ∈ p.2, k.length = 32)
    (hfc : fc.length = 20) :
    parseBody keccak data
        [.bytes (beBytes c), .bytes (beBytes n), .bytes (beBytes mp), .bytes (beBytes mf),
         .bytes (beBytes gl), .bytes (toF.getD []), .bytes (beBytes v), .bytes d,
         .list (al.map alPairItem), .bytes fc]
      = .ok { type := CIP_64_TYPE_NUMBER, chainId := c, nonce := n,
              maxPriorityFeePerGas := mp, maxFeePerGas := mf, gasPrice := none,
              gasLimit := gl, «to» := toF, value := v, data := d, accessList := al,
              feeCurrency := some fc, hash := none, signature := none } := by
  have hto2 : handleAddress (.bytes (toF.getD [])) = .ok toF := by
    rcases toF with _ | a
    · exact handleAddress_nil
    · exact handleAddress_addr a (hto a rfl)
  have hform : parseBody keccak data
        [.bytes (beBytes c), .bytes (beBytes n), .bytes (beBytes mp), .bytes (beBytes mf),
         .bytes (beBytes gl), .bytes (toF.getD []), .bytes (beBytes v), .bytes d,
         .list (al.map alPairItem), .bytes fc]
      = (handleUint (.bytes (beBytes mp)) "maxPriorityFeePerGas" >>= fun mpv =>
         handleUint (.bytes (beBytes mf)) "maxFeePerGas" >>= fun mfv =>
         handleUint (.bytes (beBytes c)) "chainId" >>= fun cid =>
         handleNumber (.bytes (beBytes n)) "nonce" >>= fun nn =>
         handleUint (.bytes (beBytes gl)) "gasLimit" >>= fun glv =>
         handleAddress (.bytes (toF.getD [])) >>= fun toA =>
         handleUint (.bytes (beBytes v)) "value" >>= fun vv =>
         hexBytes (.bytes d) >>= fun dv =>
         handleAccessList (.list (al.map alPairItem)) "accessList" >>= fun alv =>
         handleAddress (.bytes fc) >>= fun fcv =>
         .ok { type := CIP_64_TYPE_NUMBER, chainId := cid, nonce := nn,
               maxPriorityFeePerGas := mpv, maxFeePerGas := mfv, gasPrice := none,
               gasLimit := glv, «to» := toA, value := vv, data := dv, accessList := alv,
               feeCurrency := fcv, hash := none, signature := none }) := rfl
  rw [hform]
  simp only [handleUint_beBytes mp "maxPriorityFeePerGas" hmp,
    handleUint_beBytes mf "maxFeePerGas" hmf, handleUint_beBytes c "chainId" hc,
    handleNumber_beBytes n "nonce" hn, handleUint_beBytes gl "gasLimit" hgl, hto2,
    handleUint_beBytes v "value" hv, hexBytes_bytes,
    handleAccessList_fmt al "accessList" hal,
    handleAddress_addr fc hfc, ok_bind]

theorem parseBody_ok_inv {keccak : List Nat → List Nat} {data : List Nat}
    {fs : List Rlp.Item} {r : ParsedTx} (h : parseBody keccak data fs = .ok r) :
    (∃ fc, handleAddress (fs.getD 9 (.bytes [])) = .ok fc ∧ r.feeCurrency = fc)
    ∧ (fs.length = 10 → r.hash = none ∧ r.signature = none)
    ∧ (fs.length ≠ 10 → ∃ sig, parseEipSignature (fs.drop 10) = .ok sig
        ∧ r.hash = some (keccak data) ∧ r.signature = some sig) := by
  rw [parseBody_eq] at h
  obtain ⟨mp, hmp, h⟩ := bind_ok_inv h
  obtain ⟨mf, hmf, h⟩ := bind_ok_inv h
  obtain ⟨cid, hcid, h⟩ := bind_ok_inv h
  obtain ⟨nn, hnn, h⟩ := bind_ok_inv h
  obtain ⟨gl, hgl, h⟩ := bind_ok_inv h
  obtain ⟨toA, hto, h⟩ := bind_ok_inv h
  obtain ⟨v, hv, h⟩ := bind_ok_inv h
  obtain ⟨d, hd, h⟩ := bind_ok_inv h
  obtain ⟨al, hal, h⟩ := bind_ok_inv h
  obtain ⟨fc, hfc, h⟩ := bind_ok_inv h
  by_cases h10 : fs.length = 10
  · rw [if_pos h10] at h
    injection h with h2
    refine ⟨⟨fc, hfc, ?_⟩, fun _ => ⟨?_, ?_⟩, fun hne => absurd h10 hne⟩
    all_goals rw [← h2]
  · rw [if_neg h10] at h
    obtain ⟨sig, hsig, h⟩ := bind_ok_inv h
    injection h with h2
    refine ⟨⟨fc, hfc, ?_⟩, fun h10a => absurd h10a h10, fun _ => ⟨sig, hsig, ?_, ?_⟩⟩
    all_goals rw [← h2]

theorem parseBody_error {keccak : List Nat → List Nat} {data : List Nat}
    {fs : List Rlp.Item} {e : Err} (h : parseBody keccak data fs = .error e) :
    e.msg ≠ fcMsg ∧ Err.isInvalidArg e := by
  have fin : ∀ {e2 : Err}, Err.isInvalidArg e2 →
      (e2.msg = "value exceeds uint size" ∨ e2.msg = "invalid uint"
        ∨ e2.msg = "value exceeds safe integer range" ∨ e2.msg = "invalid number"
        ∨ e2.msg = "invalid address" ∨ e2.msg = "invalid BytesLike value"
        ∨ e2.msg = "invalid slot" ∨ e2.msg = "invalid slot set"
        ∨ e2.msg = "invalid access list" ∨ e2.msg = "invalid yParity"
        ∨ e2.msg = "value out of range" ∨ e2.msg = "invalid signature") →
      e2.msg ≠ fcMsg ∧ Err.isInvalidArg e2 := by
    intro e2 hia hm
    refine ⟨?_, hia⟩
    rcases hm with hm|hm|hm|hm|hm|hm|hm|hm|hm|hm|hm|hm <;> rw [hm] <;> decide
  rw [parseBody_eq] at h
  rcases bind_error_inv h with h0 | ⟨mp, h0, h⟩
  · have := handleUint_error h0
    exact fin this.2 (by tauto)
  rcases bind_error_inv h with h1 | ⟨mf, h1, h⟩
  · have := handleUint_error h1
    exact fin this.2 (by tauto)
  rcases bind_error_inv h with h2 | ⟨cid, h2, h⟩
  · have := handleUint_error h2
    exact fin this.2 (by tauto)
  rcases bind_error_inv h with h3 | ⟨nn, h3, h⟩
  · have := handleNumber_error h3
    exact fin this.2 (by tauto)
  rcases bind_error_inv h with h4 | ⟨gl, h4, h⟩
  · have := handleUint_error h4
    exact fin this.2 (by tauto)
  rcases bind_error_inv h with h5 | ⟨toA, h5, h⟩
  · have := handleAddress_error h5
    exact fin this.2 (by tauto)
  rcases bind_error_inv h with h6 | ⟨v, h6, h⟩
  · have := handleUint_error h6
    exact fin this.2 (by tauto)
  rcases bind_error_inv h with h7 | ⟨d, h7, h⟩
  · have := hexBytes_error h7
    exact fin this.2 (by tauto)
  rcases bind_error_inv h with h8 | ⟨al, h8, h⟩
  · have := handleAccessList_error h8
    exact fin this.2 (by tauto)
  rcases bind_error_inv h with h9 | ⟨fc, h9, h⟩
  · have := handleAddress_error h9
    exact fin this.2 (by tauto)
  by_cases h10 : fs.length = 10
  · rw [if_pos h10] at h
    exact absurd h (by simp)
  · rw [if_neg h10] at h
    rcases bind_error_inv h with hs | ⟨sig, hs, h⟩
    · have := parseEipSignature_error hs
      exact fin this.2 (by tauto)
    · exact absurd h (by simp)

theorem parseCip64_ok_inv {keccak : List Nat → List Nat} {data : List Nat} {r : ParsedTx}
    (h : parseCip64 keccak data = .ok r) :
    ∃ fs, Rlp.decodeRlp (data.drop 1) = .ok (.list fs) ∧ (fs.length = 10 ∨ fs.length = 13)
      ∧ parseBody keccak data fs = .ok r := by
  rw [parseCip64_eq] at h
  obtain ⟨decoded, hdec, h⟩ := bind_ok_inv h
  match decoded, hdec, h with
  | .bytes bs, hdec, h => exact absurd h (by simp)
  | .list fs, hdec, h =>
    have h2 : (if fs.length = 10 ∨ fs.length = 13 then parseBody keccak data fs
        else .error (.invalidArgument "data" fcMsg (hexlify data))) = .ok r := h
    by_cases hlen : fs.length = 10 ∨ fs.length = 13
    · rw [if_pos hlen] at h2
      exact ⟨fs, hdec, hlen, h2⟩
    · rw [if_neg hlen] at h2
      exact absurd h2 (by simp)

end Celo

namespace Plugin

open Ethers

theorem pluginParseBody_eq (keccak : List Nat → List Nat) (data : List Nat)
    (fs : List Rlp.Item) :
    parseBody keccak data fs =
      (handleUint (fs.getD 2 (.bytes [])) "maxPriorityFeePerGas" >>= fun mp =>
       handleUint (fs.getD 3 (.bytes [])) "maxFeePerGas" >>= fun mf =>
       handleUint (fs.getD 0 (.bytes [])) "chainId" >>= fun cid =>
       handleNumber (fs.getD 1 (.bytes [])) "nonce" >>= fun nn =>
       handleUint (fs.getD 4 (.bytes [])) "gasLimit" >>= fun gl =>
       handleAddress (fs.getD 5 (.bytes [])) >>= fun toA =>
       handleUint (fs.getD 6 (.bytes [])) "value" >>= fun v =>
       hexBytes (fs.getD 7 (.bytes [])) >>= fun d =>
       handleAccessList (fs.getD 8 (.bytes [])) "accessList" >>= fun al =>
       handleAddress (fs.getD 9 (.bytes [])) >>= fun fc =>
       (if fs.length = 10 then
          .ok { type := CIP_64_TYPE_NUMBER, chainId := cid, nonce := nn,
                maxPriorityFeePerGas := mp, maxFeePerGas := mf, gasPrice := none,
                gasLimit := gl, «to» := toA, value := v, data := d, accessList := al,
                customData := some { feeCurrency := fc }, hash := none, signature := none }
        else
          parseEipSignature (fs.drop 10) >>= fun sig =>
          .ok { type := CIP_64_TYPE_NUMBER, chainId := cid, nonce := nn,
                maxPriorityFeePerGas := mp, maxFeePerGas := mf, gasPrice := none,
                gasLimit := gl, «to» := toA, value := v, data := d, accessList := al,
                customData := some { feeCurrency := fc }, hash := some (keccak data),
                signature := some sig })) := rfl

theorem pluginParseCip64_eq (keccak : List Nat → List Nat) (data : List Nat) :
    parseCip64 keccak data =
      (Rlp.decodeRlp (data.drop 1) >>= fun decoded =>
       match decoded with
       | .list fs =>
         if fs.length = 10 ∨ fs.length = 13 then parseBody keccak data fs
         else .error (.invalidArgument "data" fcMsg (hexlify data))
       | .bytes _ => .error (.invalidArgument "data" fcMsg (hexlify data))) := rfl

theorem createFromObj_eq (like : TxLike) :
    createFromObj like =
      (if like.type = some CIP_64_TYPE_NUMBER ∧ like.customData.isSome then
        (Ethers.getAddress (like.customData.bind CustomDataB.feeCurrency) >>= fun fc =>
         (match like.«to» with
          | some a => (Ethers.getAddress (some a)).map some
          | none => .ok none) >>= fun toV =>
         (match like.nonce with
          | some n => (Ethers.setNonce n).map some
          | none => .ok none) >>= fun nonceV =>
         (match like.accessList with
          | some al => (Ethers.accessListify al).map some
          | none => .ok none) >>= fun alV =>
         .ok (.cip64
           { chainId := like.chainId, nonce := nonceV,
             maxPriorityFeePerGas := like.maxPriorityFeePerGas,
             maxFeePerGas := like.maxFeePerGas, gasPrice := like.gasPrice,
             gasLimit := like.gasLimit, «to» := toV, value := like.value,
             data := like.data, accessList := alV, feeCurrency := some fc,
             signature := like.signature }))
       else .ok (.generic like)) := rfl

end Plugin

/-! ## The two variants decode identically -/

theorem parseBody_variants (keccak : List Nat → List Nat) (data : List Nat)
    (fs : List Rlp.Item) :
    Celo.parseBody keccak data fs = (Plugin.parseBody keccak data fs).map pluginToCelo := by
  rw [Celo.parseBody_eq, Plugin.pluginParseBody_eq]
  rcases h2 : Ethers.handleUint (fs.getD 2 (.bytes [])) "maxPriorityFeePerGas" with e | mp
  · simp only [h2, error_bind, map_error]
  simp only [h2, ok_bind]
  rcases h3 : Ethers.handleUint (fs.getD 3 (.bytes [])) "maxFeePerGas" with e | mf
  · simp only [h3, error_bind, map_error]
  simp only [h3, ok_bind]
  rcases h0 : Ethers.handleUint (fs.getD 0 (.bytes [])) "chainId" with e | cid
  · simp only [h0, error_bind, map_error]
  simp only [h0, ok_bind]
  rcases h1 : Ethers.handleNumber (fs.getD 1 (.bytes [])) "nonce" with e | nn
  · simp only [h1, error_bind, map_error]
  simp only [h1, ok_bind]
  rcases h4 : Ethers.handleUint (fs.getD 4 (.bytes [])) "gasLimit" with e | gl
  · simp only [h4, error_bind, map_error]
  simp only [h4, ok_bind]
  rcases h5 : Ethers.handleAddress (fs.getD 5 (.bytes [])) with e | toA
  · simp only [h5, error_bind, map_error]
  simp only [h5, ok_bind]
  rcases h6 : Ethers.handleUint (fs.getD 6 (.bytes [])) "value" with e | v
  · simp only [h6, error_bind, map_error]
  simp only [h6, ok_bind]
  rcases h7 : Ethers.hexBytes (fs.getD 7 (.bytes [])) with e | d
  · simp only [h7, error_bind, map_error]
  simp only [h7, ok_bind]
  rcases h8 : Ethers.handleAccessList (fs.getD 8 (.bytes [])) "accessList" with e | al
  · simp only [h8, error_bind, map_error]
  simp only [h8, ok_bind]
  rcases h9 : Ethers.handleAddress (fs.getD 9 (.bytes [])) with e | fc
  · simp only [h9, error_bind, map_error]
  simp only [h9, ok_bind]
  by_cases h10 : fs.length = 10
  · rw [if_pos h10, if_pos h10, map_ok]
    rfl
  · rw [if_neg h10, if_neg h10]
    rcases hsig : Ethers.parseEipSignature (fs.drop 10) with e | sig
    · simp only [hsig, error_bind, map_error]
    · simp only [hsig, ok_bind, map_ok]
      rfl

theorem parseCip64_variants (keccak : List Nat → List Nat) (data : List Nat) :
    Celo.parseCip64 keccak data = (Plugin.parseCip64 keccak data).map pluginToCelo := by
  rw [Celo.parseCip64_eq, Plugin.pluginParseCip64_eq]
  rcases hdec : Rlp.decodeRlp (data.drop 1) with e | it
  · simp only [hdec, error_bind, map_error]
  simp only [hdec, ok_bind]
  match it with
  | .bytes bs => rw [map_error]
  | .list fs =>
    show (if fs.length = 10 ∨ fs.length = 13 then Celo.parseBody keccak data fs
          else .error (.invalidArgument "data" fcMsg (hexlify data)))
        = Except.map pluginToCelo
            (if fs.length = 10 ∨ fs.length = 13 then Plugin.parseBody keccak data fs
             else .error (.invalidArgument "data" fcMsg (hexlify data)))
    by_cases hlen : fs.length = 10 ∨ fs.length = 13
    · rw [if_pos hlen, if_pos hlen]
      exact parseBody_variants keccak data fs
    · rw [if_neg hlen, if_neg hlen, map_error]

namespace Celo

open Ethers

theorem parseCip64_of_decode {keccak : List Nat → List Nat} {data : List Nat}
    {fs : List Rlp.Item} (hdec : Rlp.decodeRlp (data.drop 1) = .ok (.list fs))
    (hlen : fs.length = 10 ∨ fs.length = 13) :
    parseCip64 keccak data = parseBody keccak data fs := by
  rw [parseCip64_eq]
  simp only [hdec, ok_bind]
  show (if fs.length = 10 ∨ fs.length = 13 then parseBody keccak data fs
        else .error (.invalidArgument "data" fcMsg (hexlify data))) = _
  rw [if_pos hlen]

theorem parseCip64_badshape {keccak : List Nat → List Nat} {data : List Nat} {it : Rlp.Item}
    (hdec : Rlp.decodeRlp (data.drop 1) = .ok it)
    (hbad : ∀ fs, it = .list fs → ¬(fs.length = 10 ∨ fs.length = 13)) :
    parseCip64 keccak data = .error (.invalidArgument "data" fcMsg (hexlify data)) := by
  rw [parseCip64_eq]
  simp only [hdec, ok_bind]
  match it, hbad with
  | .bytes bs, _ => rfl
  | .list fs, hbad =>
    show (if fs.length = 10 ∨ fs.length = 13 then parseBody keccak data fs
          else .error (.invalidArgument "data" fcMsg (hexlify data))) = _
    rw [if_neg (hbad fs rfl)]

theorem parseCip64_decode_error {keccak : List Nat → List Nat} {data : List Nat} {e : Err}
    (hdec : Rlp.decodeRlp (data.drop 1) = .error e) :
    parseCip64 keccak data = .error e := by
  rw [parseCip64_eq]
  simp only [hdec, error_bind]

end Celo

namespace Ethers

theorem good_validFields (c n mp mf gl v : Nat) (toF : Option (List Nat)) (d : List Nat)
    (al : AccessList) (fc : List Nat)
    (hc : c < 2 ^ 256) (hn : n < 2 ^ 256) (hmp : mp < 2 ^ 256) (hmf : mf < 2 ^ 256)
    (hgl : gl < 2 ^ 256) (hv : v < 2 ^ 256)
    (hto : ∀ a, toF = some a → a.length = 20) (hd : d.length < 256 ^ 8)
    (hal : ∀ p ∈ al, p.1.length = 20 ∧ ∀ k ∈ p.2, k.length = 32) (hfc : fc.length = 20) :
    Rlp.Good (.list [.bytes (beBytes c), .bytes (beBytes n), .bytes (beBytes mp),
      .bytes (beBytes mf), .bytes (beBytes gl), .bytes (toF.getD []), .bytes (beBytes v),
      .bytes d, .list (al.map alPairItem), .bytes fc]) := by
  have h88 : (256 : Nat) ^ 8 = 18446744073709551616 := by norm_num
  have hbe : ∀ m : Nat, m < 2 ^ 256 → Rlp.Good (.bytes (beBytes m)) := by
    intro m hm
    apply Rlp.Good.bytes
    have := beBytes_length_le 32 m (lt_of_lt_of_le hm (by norm_num))
    rw [h88]
    omega
  have htoG : Rlp.Good (.bytes (toF.getD [])) := by
    apply Rlp.Good.bytes
    rw [h88]
    rcases hx : toF with _ | a
    · simp
    · have := hto a hx
      simp [this]
  apply Rlp.Good.list
  intro i hi
  simp only [List.mem_cons, List.not_mem_nil, or_false] at hi
  rcases hi with rfl | rfl | rfl | rfl | rfl | rfl | rfl | rfl | rfl | rfl
  · exact hbe c hc
  · exact hbe n hn
  · exact hbe mp hmp
  · exact hbe mf hmf
  · exact hbe gl hgl
  · exact htoG
  · exact hbe v hv
  · exact Rlp.Good.bytes d hd
  · exact good_alItem al hal
  · exact Rlp.Good.bytes fc (by rw [h88]; omega)

theorem depth_validFields (c n mp mf gl v : Nat) (toF : Option (List Nat)) (d : List Nat)
    (al : AccessList) (fc : List Nat) :
    Rlp.DepthLe 5 (.list [.bytes (beBytes c), .bytes (beBytes n), .bytes (beBytes mp),
      .bytes (beBytes mf), .bytes (beBytes gl), .bytes (toF.getD []), .bytes (beBytes v),
      .bytes d, .list (al.map alPairItem), .bytes fc]) := by
  apply Rlp.DepthLe.list
  intro i hi
  simp only [List.mem_cons, List.not_mem_nil, or_false] at hi
  rcases hi with rfl | rfl | rfl | rfl | rfl | rfl | rfl | rfl | rfl | rfl
  · exact Rlp.DepthLe.bytes 3 _
  · exact Rlp.DepthLe.bytes 3 _
  · exact Rlp.DepthLe.bytes 3 _
  · exact Rlp.DepthLe.bytes 3 _
  · exact Rlp.DepthLe.bytes 3 _
  · exact Rlp.DepthLe.bytes 3 _
  · exact Rlp.DepthLe.bytes 3 _
  · exact Rlp.DepthLe.bytes 3 _
  · exact depth_alItem al
  · exact Rlp.DepthLe.bytes 3 _

end Ethers

open Ethers

/-! ## The claims -/

/-- C1: for every transaction field set whose unsigned serialization
succeeds, the output is the single type-tag byte 0x7b (the value of
`CIP_64_TYPE_NUMBER`) followed by the recursive-list encoding of exactly
10 elements in the order chainId, nonce, maxPriorityFeePerGas,
maxFeePerGas, gasLimit, to, value, data, accessList, feeCurrency, where
each absent numeric field is substituted with zero (`Option.getD 0`
under the minimal big-endian rendering `beBytes`, and `beBytes 0 = []`),
an absent `to` and absent `data` encode as the empty byte sequence, and
an absent access list encodes as the empty list. -/
theorem c1_unsigned_serialization_layout (tx : Ethers.Cip64Fields) (out : List Nat)
    (h : Celo.unsignedSerialized tx = .ok out) :
    ∃ fcB alItem fields,
      tx.feeCurrency = some fcB
      ∧ Ethers.formatAccessList (tx.accessList.getD []) = .ok alItem
      ∧ (tx.accessList = none → alItem = .list [])
      ∧ fields = [.bytes (beBytes (tx.chainId.getD 0)), .bytes (beBytes (tx.nonce.getD 0)),
          .bytes (beBytes (tx.maxPriorityFeePerGas.getD 0)),
          .bytes (beBytes (tx.maxFeePerGas.getD 0)), .bytes (beBytes (tx.gasLimit.getD 0)),
          .bytes (tx.«to».getD []), .bytes (beBytes (tx.value.getD 0)),
          .bytes (tx.data.getD []), alItem, .bytes fcB]
      ∧ fields.length = 10
      ∧ out = CIP_64_TYPE_NUMBER :: Rlp.rlpEncodeTx (.list fields) := by
  obtain ⟨fs, hmk, hout⟩ := Celo.serialize_none_ok_inv h
  obtain ⟨fcB, alItem, hfc, hfcl, hal, hshape⟩ := Celo.mkFields_ok_inv hmk
  refine ⟨fcB, alItem, fs, hfc, hal, ?_, hshape, ?_, hout⟩
  · intro hnone
    rw [hnone] at hal
    have h2 : (Except.ok (Rlp.Item.list []) : Except Err Rlp.Item) = .ok alItem := hal
    injection h2 with h3
    exact h3.symm
  · rw [hshape]
    rfl

/-- Witness for C1: the transaction with only the fee currency set
serializes, and the layout is as stated. -/
theorem c1_unsigned_serialization_layout_witness :
    ∃ fcB alItem fields,
      wTxU.feeCurrency = some fcB
      ∧ Ethers.formatAccessList (wTxU.accessList.getD []) = .ok alItem
      ∧ (wTxU.accessList = none → alItem = .list [])
      ∧ fields = [.bytes (beBytes (wTxU.chainId.getD 0)), .bytes (beBytes (wTxU.nonce.getD 0)),
          .bytes (beBytes (wTxU.maxPriorityFeePerGas.getD 0)),
          .bytes (beBytes (wTxU.maxFeePerGas.getD 0)),
          .bytes (beBytes (wTxU.gasLimit.getD 0)), .bytes (wTxU.«to».getD []),
          .bytes (beBytes (wTxU.value.getD 0)), .bytes (wTxU.data.getD []), alItem,
          .bytes fcB]
      ∧ fields.length = 10
      ∧ ([123, 222, 128, 128, 128, 128, 128, 128, 128, 128, 192, 148] ++ List.replicate 20 17)
          = CIP_64_TYPE_NUMBER :: Rlp.rlpEncodeTx (.list fields) :=
  c1_unsigned_serialization_layout wTxU
    ([123, 222, 128, 128, 128, 128, 128, 128, 128, 128, 192, 148] ++ List.replicate 20 17)
    (by rfl)

/-- C2: for every valid field set with the fee currency set to a valid
20-byte address (validity: numerics in range, nonce in the safe-integer
range, `to` absent or a 20-byte address, data of realizable length,
access-list addresses 20 bytes and storage keys 32 bytes), the unsigned
serialization succeeds and parsing it returns exactly the same field
values, with no hash and no signature attached. -/
theorem c2_parse_serialize_roundtrip (keccak : List Nat → List Nat)
    (c n mp mf gl v : Nat) (toF : Option (List Nat)) (d : List Nat)
    (al : Ethers.AccessList) (fc : List Nat)
    (hc : c < 2 ^ 256) (hn : n < 2 ^ 53) (hmp : mp < 2 ^ 256) (hmf : mf < 2 ^ 256)
    (hgl : gl < 2 ^ 256) (hv : v < 2 ^ 256)
    (hto : ∀ a, toF = some a → a.length = 20) (hd : d.length < 256 ^ 8)
    (hal : ∀ p ∈ al, p.1.length = 20 ∧ ∀ k ∈ p.2, k.length = 32)
    (hfc : fc.length = 20) :
    ∃ out, Celo.unsignedSerialized
        { chainId := some c, nonce := some n, maxPriorityFeePerGas := some mp,
          maxFeePerGas := some mf, gasPrice := none, gasLimit := some gl, «to» := toF,
          value := some v, data := some d, accessList := some al, feeCurrency := some fc,
          signature := none } = .ok out
      ∧ Celo.parseCip64 keccak out
          = .ok { type := CIP_64_TYPE_NUMBER, chainId := c, nonce := n,
                  maxPriorityFeePerGas := mp, maxFeePerGas := mf, gasPrice := none,
                  gasLimit := gl, «to» := toF, value := v, data := d, accessList := al,
                  feeCurrency := some fc, hash := none, signature := none } := by
  have hn256 : n < 2 ^ 256 := lt_of_lt_of_le hn (by norm_num)
  have hmk := Celo.mkFields_valid c n mp mf gl v toF d al fc none none
    hc hn256 hmp hmf hgl hv hto hal hfc
  have hser := Celo.serialize_none_ok hmk
  refine ⟨_, hser, ?_⟩
  have hgood := Ethers.good_validFields c n mp mf gl v toF d al fc
    hc hn256 hmp hmf hgl hv hto hd hal hfc
  have hdepth := Ethers.depth_validFields c n mp mf gl v toF d al fc
  have hdec : Rlp.decodeRlp
      ((CIP_64_TYPE_NUMBER :: Rlp.rlpEncodeTx (.list
          [.bytes (beBytes c), .bytes (beBytes n), .bytes (beBytes mp), .bytes (beBytes mf),
           .bytes (beBytes gl), .bytes (toF.getD []), .bytes (beBytes v), .bytes d,
           .list (al.map alPairItem), .bytes fc])).drop 1)
      = .ok (.list
          [.bytes (beBytes c), .bytes (beBytes n), .bytes (beBytes mp), .bytes (beBytes mf),
           .bytes (beBytes gl), .bytes (toF.getD []), .bytes (beBytes v), .bytes d,
           .list (al.map alPairItem), .bytes fc]) :=
    Rlp.decodeRlp_encode _ hgood hdepth
  rw [Celo.parseCip64_of_decode hdec (Or.inl rfl)]
  exact Celo.parseBody_valid keccak _ c n mp mf gl v toF d al fc
    hc hn hmp hmf hgl hv hto hal hfc

/-- Witness for C2: a concrete valid field set round-trips. -/
theorem c2_parse_serialize_roundtrip_witness :
    ∃ out, Celo.unsignedSerialized
        { chainId := some 44787, nonce := some 1, maxPriorityFeePerGas := some 2,
          maxFeePerGas := some 3, gasPrice := none, gasLimit := some 4, «to» := none,
          value := some 5, data := some [222, 173], accessList := some [],
          feeCurrency := some wAddr, signature := none } = .ok out
      ∧ Celo.parseCip64 wKeccak out
          = .ok { type := CIP_64_TYPE_NUMBER, chainId := 44787, nonce := 1,
                  maxPriorityFeePerGas := 2, maxFeePerGas := 3, gasPrice := none,
                  gasLimit := 4, «to» := none, value := 5, data := [222, 173],
                  accessList := [], feeCurrency := some wAddr, hash := none,
                  signature := none } :=
  c2_parse_serialize_roundtrip wKeccak 44787 1 2 3 4 5 none [222, 173] [] wAddr
    (by norm_num) (by norm_num) (by norm_num) (by norm_num) (by norm_num) (by norm_num)
    (by simp) (by norm_num) (by simp) (by rfl)

/-- C3: when a successfully parsed payload carries 13 RLP fields, the
result records the keccak-256 hash of the full typed payload and the
signature recovered by `parseEipSignature` from the last three fields;
when it carries 10 fields, neither a hash nor a signature is attached. -/
theorem c3_signed_parse_hash_signature (keccak : List Nat → List Nat) (data : List Nat)
    (fs : List Rlp.Item) (r : Celo.ParsedTx)
    (hdec : Rlp.decodeRlp (data.drop 1) = .ok (.list fs))
    (hok : Celo.parseCip64 keccak data = .ok r) :
    (fs.length = 13 → r.hash = some (keccak data)
      ∧ ∃ sig, Ethers.parseEipSignature (fs.drop 10) = .ok sig ∧ r.signature = some sig)
    ∧ (fs.length = 10 → r.hash = none ∧ r.signature = none) := by
  obtain ⟨fs2, hdec2, hlen2, hbody⟩ := Celo.parseCip64_ok_inv hok
  rw [hdec] at hdec2
  injection hdec2 with h2
  injection h2 with h3
  subst h3
  obtain ⟨_, h10, h13⟩ := Celo.parseBody_ok_inv hbody
  constructor
  · intro hl13
    obtain ⟨sig, hsig, hh, hs⟩ := h13 (by omega)
    exact ⟨hh, sig, hsig, hs⟩
  · exact h10

/-- Witness for C3: the concrete 13-field payload parses with the hash
and signature attached. -/
theorem c3_signed_parse_hash_signature_witness :
    wParsed13.hash = some (wKeccak wData13)
      ∧ ∃ sig, Ethers.parseEipSignature (wFs13.drop 10) = .ok sig
        ∧ wParsed13.signature = some sig :=
  (c3_signed_parse_hash_signature wKeccak wData13 wFs13 wParsed13 (by rfl) (by rfl)).1
    (by rfl)

/-- C4: parsing rejects a payload with the field-count invalid-argument
error (name "data", the CIP-64 field-count message, value the hex of the
full payload) exactly when the RLP body decodes successfully but is not
a list of exactly 10 or exactly 13 items. -/
theorem c4_field_count_error_iff (keccak : List Nat → List Nat) (data : List Nat) :
    Celo.parseCip64 keccak data
        = .error (.invalidArgument "data" fcMsg (hexlify data))
      ↔ ∃ it, Rlp.decodeRlp (data.drop 1) = .ok it
          ∧ ¬∃ fs, it = .list fs ∧ (fs.length = 10 ∨ fs.length = 13) := by
  constructor
  · intro h
    rcases hdec : Rlp.decodeRlp (data.drop 1) with e | it
    · rw [Celo.parseCip64_decode_error hdec] at h
      injection h with h2
      obtain ⟨m, hm⟩ := Rlp.decodeRlp_error _ _ hdec
      rw [hm] at h2
      exact absurd h2 (by simp)
    · refine ⟨it, rfl, ?_⟩
      rintro ⟨fs, rfl, hlen⟩
      rw [Celo.parseCip64_of_decode hdec hlen] at h
      have := (Celo.parseBody_error h).1
      exact this rfl
  · rintro ⟨it, hdec, hbad⟩
    refine Celo.parseCip64_badshape hdec ?_
    intro fs hfs hlen
    exact hbad ⟨fs, hfs, hlen⟩

/-- C5: the `serialized` getter fails with an unsupported-operation error
exactly when no signature is attached; with a signature (and a valid
yParity) it appends yParity, r and s as three extra fields, giving 13
fields, while the unsigned serialization emits exactly 10. -/
theorem c5_serialized_requires_signature (tx : Ethers.Cip64Fields) :
    ((∃ m o, Celo.serialized tx = .error (.unsupportedOperation m o))
        ↔ tx.signature = none)
    ∧ (∀ sig fs, tx.signature = some sig → sig.yParity ≤ 1 → Celo.mkFields tx = .ok fs →
        fs.length = 10
        ∧ Celo.serialized tx = .ok (CIP_64_TYPE_NUMBER :: Rlp.rlpEncodeTx
            (.list (fs ++ [.bytes (beBytes sig.yParity), .bytes (beBytes sig.r),
              .bytes (beBytes sig.s)])))
        ∧ (fs ++ ([.bytes (beBytes sig.yParity), .bytes (beBytes sig.r),
              .bytes (beBytes sig.s)] : List Rlp.Item)).length = 13)
    ∧ (∀ fs, Celo.mkFields tx = .ok fs →
        Celo.unsignedSerialized tx = .ok (CIP_64_TYPE_NUMBER :: Rlp.rlpEncodeTx (.list fs))
        ∧ fs.length = 10) := by
  refine ⟨⟨?_, ?_⟩, ?_, ?_⟩
  · rintro ⟨m, o, herr⟩
    rcases hsig : tx.signature with _ | sig
    · rfl
    · rw [Celo.serialized_some tx sig hsig] at herr
      obtain ⟨n2, m2, v2, hev⟩ := Celo.serialize_error herr
      exact absurd hev (by simp)
  · intro hsig
    exact ⟨_, _, Celo.serialized_none tx hsig⟩
  · intro sig fs hsig hy hmk
    obtain ⟨fcB, alItem, _, _, _, hshape⟩ := Celo.mkFields_ok_inv hmk
    have hlen : fs.length = 10 := by rw [hshape]; rfl
    have hyok := Ethers.formatNumber_ok sig.yParity "yParity"
      (lt_of_le_of_lt hy (by norm_num))
    refine ⟨hlen, ?_, ?_⟩
    · rw [Celo.serialized_some tx sig hsig]
      exact Celo.serialize_some_ok hmk hyok
    · simp [hlen]
  · intro fs hmk
    obtain ⟨fcB, alItem, _, _, _, hshape⟩ := Celo.mkFields_ok_inv hmk
    have hlen : fs.length = 10 := by rw [hshape]; rfl
    exact ⟨Celo.serialize_none_ok hmk, hlen⟩

/-- Witness for C5: the concrete signed transaction serializes with the
three signature fields appended. -/
theorem c5_serialized_requires_signature_witness :
    ([.bytes [], .bytes [], .bytes [], .bytes [], .bytes [], .bytes [], .bytes [],
      .bytes [], .list [], .bytes wAddr] : List Rlp.Item).length = 10
    ∧ Celo.serialized wTxS = .ok (CIP_64_TYPE_NUMBER :: Rlp.rlpEncodeTx
        (.list ([.bytes [], .bytes [], .bytes [], .bytes [], .bytes [], .bytes [],
          .bytes [], .bytes [], .list [], .bytes wAddr]
          ++ [.bytes (beBytes 1), .bytes (beBytes 2), .bytes (beBytes 3)])))
    ∧ (([.bytes [], .bytes [], .bytes [], .bytes [], .bytes [], .bytes [], .bytes [],
        .bytes [], .list [], .bytes wAddr] : List Rlp.Item)
        ++ ([.bytes (beBytes 1), .bytes (beBytes 2), .bytes (beBytes 3)]
          : List Rlp.Item)).length = 13 :=
  (c5_serialized_requires_signature wTxS).2.1 ⟨1, 2, 3⟩
    [.bytes [], .bytes [], .bytes [], .bytes [], .bytes [], .bytes [], .bytes [],
     .bytes [], .list [], .bytes wAddr] rfl (by decide) (by rfl)

/-- C6: a transaction whose fee currency was never assigned cannot be
serialized: both the unsigned and the signed serialization of both
variants fail with an error. -/
theorem c6_missing_feeCurrency_fails (tx : Ethers.Cip64Fields)
    (h : tx.feeCurrency = none) :
    (∃ e, Celo.unsignedSerialized tx = .error e)
    ∧ (∃ e, Celo.serialized tx = .error e)
    ∧ (∃ e, Plugin.unsignedSerialized tx = .error e)
    ∧ (∃ e, Plugin.serialized tx = .error e) := by
  have hu : ∃ e, Celo.unsignedSerialized tx = .error e := by
    rcases h1 : Celo.unsignedSerialized tx with e | out
    · exact ⟨e, rfl⟩
    · obtain ⟨fs, hmk, _⟩ := Celo.serialize_none_ok_inv h1
      obtain ⟨fcB, alItem, hfc, _⟩ := Celo.mkFields_ok_inv hmk
      rw [h] at hfc
      exact absurd hfc (by simp)
  have hs : ∃ e, Celo.serialized tx = .error e := by
    rcases hsig : tx.signature with _ | sig
    · exact ⟨_, Celo.serialized_none tx hsig⟩
    · rw [Celo.serialized_some tx sig hsig]
      rcases h1 : Celo.serialize tx (some sig) with e | out
      · exact ⟨e, rfl⟩
      · obtain ⟨fs, y, hmk, _, _⟩ := Celo.serialize_some_ok_inv h1
        obtain ⟨fcB, alItem, hfc, _⟩ := Celo.mkFields_ok_inv hmk
        rw [h] at hfc
        exact absurd hfc (by simp)
  refine ⟨hu, hs, ?_, ?_⟩
  · rw [show Plugin.unsignedSerialized tx = Celo.unsignedSerialized tx from rfl]
    exact hu
  · rw [show Plugin.serialized tx = Celo.serialized tx from rfl]
    exact hs

/-- Witness for C6: the all-empty transaction fails on all four paths. -/
theorem c6_missing_feeCurrency_fails_witness :
    (∃ e, Celo.unsignedSerialized wTxNone = .error e)
    ∧ (∃ e, Celo.serialized wTxNone = .error e)
    ∧ (∃ e, Plugin.unsignedSerialized wTxNone = .error e)
    ∧ (∃ e, Plugin.serialized wTxNone = .error e) :=
  c6_missing_feeCurrency_fails wTxNone rfl

/-- C7: the two shipped variants of the codec agree: their serializers
are the same function, and their parsers produce field-for-field equal
results (with the plugin variant's fee currency read out of its
`customData` bag). -/
theorem c7_variants_equivalent :
    (∀ tx sig, Celo.serialize tx sig = Plugin.serialize tx sig)
    ∧ (∀ keccak data,
        Celo.parseCip64 keccak data = (Plugin.parseCip64 keccak data).map pluginToCelo) :=
  ⟨fun _ _ => rfl, parseCip64_variants⟩

/-- C8: the gas-estimation interceptors rewrite exactly the matching
requests: a null request passes through, a non-matching request is
returned unchanged, and a matching `eth_estimateGas` request under an
`estimateGas` action with a declared fee currency gets `feeCurrency`
written onto its first argument object (from the transaction property in
the standalone variant, from `customData` in the plugin variant). -/
theorem c8_gas_estimation_rewrite (req : Rpc.RequestBody) (ctx : Rpc.ActionCtx)
    (a : Rpc.ArgObj) (rest : List Rpc.ArgObj) :
    (Rpc.getRpcRequest none ctx = .ok none)
    ∧ (Rpc.celoShouldInject req ctx = false →
        Rpc.getRpcRequest (some req) ctx = .ok (some req))
    ∧ (Rpc.celoShouldInject req ctx = true → req.args = a :: rest →
        Rpc.getRpcRequest (some req) ctx
          = .ok (some { req with args :=
              { a with feeCurrency := ctx.transaction.feeCurrency } :: rest }))
    ∧ (Rpc.pluginShouldInject req ctx = false → Rpc.intercept req ctx = .ok req)
    ∧ (∀ cd, Rpc.pluginShouldInject req ctx = true →
        ctx.transaction.customData = some cd → req.args = a :: rest →
        Rpc.intercept req ctx
          = .ok { req with args := { a with feeCurrency := cd.feeCurrency } :: rest }) := by
  refine ⟨rfl, ?_, ?_, ?_, ?_⟩
  · intro h
    simp [Rpc.getRpcRequest, h]
  · intro h ha
    simp [Rpc.getRpcRequest, h, ha]
  · intro h
    simp [Rpc.intercept, h]
  · intro cd h hcd ha
    simp [Rpc.intercept, h, ha, hcd]

/-- Witness for C8: the concrete estimate-gas request is rewritten by
both variants. -/
theorem c8_gas_estimation_rewrite_witness :
    Rpc.getRpcRequest (some wReq) wCtx
        = .ok (some { wReq with args :=
            { wArg with feeCurrency := wCtx.transaction.feeCurrency } :: [] })
    ∧ Rpc.intercept wReq wCtx
        = .ok { wReq with args :=
            { wArg with feeCurrency := wCustomData.feeCurrency } :: [] } :=
  ⟨(c8_gas_estimation_rewrite wReq wCtx wArg []).2.2.1 (by rfl) (by rfl),
   (c8_gas_estimation_rewrite wReq wCtx wArg []).2.2.2.2 wCustomData (by rfl) (by rfl)
     (by rfl)⟩

/-- C9: a parsed payload whose tenth field is the empty byte string
comes back with no fee currency set (the empty address decodes to the
absent value rather than an error), and this situation is realizable. -/
theorem c9_empty_feeCurrency_parses_none (keccak : List Nat → List Nat) :
    (∀ data fs r, Rlp.decodeRlp (data.drop 1) = .ok (.list fs) →
        fs.getD 9 (.bytes []) = .bytes [] →
        Celo.parseCip64 keccak data = .ok r → r.feeCurrency = none)
    ∧ ∃ r, Celo.parseCip64 keccak wData10 = .ok r ∧ r.feeCurrency = none := by
  constructor
  · intro data fs r hdec h9 hok
    obtain ⟨fs2, hdec2, hlen, hbody⟩ := Celo.parseCip64_ok_inv hok
    rw [hdec] at hdec2
    injection hdec2 with h2
    injection h2 with h3
    subst h3
    obtain ⟨⟨fc, hfc, hrfc⟩, _, _⟩ := Celo.parseBody_ok_inv hbody
    rw [h9, Ethers.handleAddress_nil] at hfc
    injection hfc with h4
    rw [hrfc, ← h4]
  · exact ⟨wParsed10, rfl, rfl⟩

/-- Witness for C9: the concrete 10-field payload with an empty tenth
field parses with no fee currency. -/
theorem c9_empty_feeCurrency_parses_none_witness : wParsed10.feeCurrency = none :=
  (c9_empty_feeCurrency_parses_none wKeccak).1 wData10 wFs10 wParsed10 rfl rfl rfl

/-- C10: the plugin's factory rejects an object input that selects the
CIP-64 branch (type 123 with a `customData` bag) but whose bag carries
no fee currency: the validating address setter fails on the absent
value. -/
theorem c10_create_missing_custom_feeCurrency_fails (keccak : List Nat → List Nat)
    (like : Plugin.TxLike) (ht : like.type = some CIP_64_TYPE_NUMBER)
    (hcd : like.customData = some { feeCurrency := none }) :
    Plugin.create keccak (.obj like)
      = .error (.invalidArgument "address" "invalid address" "") := by
  show Plugin.createFromObj like = _
  rw [Plugin.createFromObj_eq, if_pos ⟨ht, by rw [hcd]; rfl⟩]
  have hb : like.customData.bind Plugin.CustomDataB.feeCurrency = none := by
    rw [hcd]
    rfl
  rw [hb]
  rfl

/-- Witness for C10: the concrete type-123 object with an empty
custom-data bag is rejected. -/
theorem c10_create_missing_custom_feeCurrency_fails_witness :
    Plugin.create wKeccak (.obj wLike)
      = .error (.invalidArgument "address" "invalid address" "") :=
  c10_create_missing_custom_feeCurrency_fails wKeccak wLike rfl rfl

end CeloSpec
